import Mathlib

/-!
Verification development for a Python repository that automates account
registration over HTTP (identity generation, proxy pool management, an HTTP
session wrapper with token capture and redirect rewriting, a registration
form filler, and a top-level proxy-rotation retry loop).

Each Python function relevant to the verified claims is shallowly embedded
as an executable Lean definition.  Randomness (`random.choice`,
`random.randint`, `random.shuffle`) is modelled by explicit oracle
parameters; network responses and HTML-parser results are modelled as
explicit data passed to the embedded functions.  Python dictionaries are
modelled as insertion-ordered association lists, and Python string
truthiness (`if s:`) is modelled explicitly.
-/

namespace FBSpec

/-- Python `needle in haystack` substring test. -/
def strContains (haystack needle : String) : Bool :=
  decide (needle.toList <:+: haystack.toList)

/-- Python `s.startswith(pre)`. -/
def pyStartsWith (s pre : String) : Bool := pre.toList.isPrefixOf s.toList

/-- Python `s.split(sep)` for a one-character separator (the only kind used
in this code base). -/
def splitChar (sep : Char) : List Char → List (List Char)
  | [] => [[]]
  | c :: cs =>
    match splitChar sep cs with
    | [] => [[]]
    | g :: gs => if c = sep then [] :: g :: gs else (c :: g) :: gs

/-- Python `s.split(sep)` on strings. -/
def pySplit (s : String) (sep : Char) : List String :=
  (splitChar sep s.toList).map String.mk

/-- Python `s.lower()` (ASCII). -/
def pyLower (s : String) : String := String.mk (s.toList.map Char.toLower)

/-- Python `s.replace(pat, sub)` for nonempty `pat` (left-to-right,
non-overlapping); the fuel argument is instantiated with the input length. -/
def replaceFuel (pat sub : List Char) : Nat → List Char → List Char
  | 0, cs => cs
  | _ + 1, [] => []
  | n + 1, c :: cs =>
    if pat.isPrefixOf (c :: cs) ∧ pat ≠ [] then
      sub ++ replaceFuel pat sub n ((c :: cs).drop pat.length)
    else c :: replaceFuel pat sub n cs

/-- Python `s.replace(pat, sub)` on strings (nonempty `pat`). -/
def pyReplace (s pat sub : String) : String :=
  String.mk (replaceFuel pat.toList sub.toList s.toList.length s.toList)

/-- Python truthiness of an optional string (`None` and `""` are falsy). -/
def pyTruthy : Option String → Bool
  | none => false
  | some s => s ≠ ""

/-- Python `str.isdigit` restricted to ASCII content: true iff the string is
nonempty and every character is a decimal digit. -/
def pyIsDigit (s : String) : Bool :=
  s ≠ "" && s.toList.all Char.isDigit

/-- Lookup in a Python dict modelled as an association list
(first binding wins; well-formed dicts have unique keys). -/
def dictGet (m : List (String × String)) (k : String) : Option String :=
  (m.find? (fun p => p.1 = k)).map (·.2)

/-- Python `k in dict`. -/
def dictHas (m : List (String × String)) (k : String) : Bool :=
  (m.find? (fun p => p.1 = k)).isSome

/-!
## `utils/helpers.py` — `generate_strong_password`

The Python function draws one character from each of four character classes,
fills the remaining `length - 4` positions from the union of the classes,
shuffles, and joins.  `random.choice` is modelled by an index oracle reduced
modulo the list length; `random.shuffle` is modelled by an arbitrary
function assumed (hypothesis) to produce a permutation of its input, which
is the documented contract of `random.shuffle`.
-/

def pwLowercase : String := "abcdefghijklmnopqrstuvwxyz"
def pwUppercase : String := "ABCDEFGHIJKLMNOPQRSTUVWXYZ"
def pwDigits : String := "0123456789"
def pwSpecial : String := "!@#$%^&*()_+-=[]{}|;:,./<>?"

/-- `random.choice` over the characters of a string, driven by an index
oracle value. -/
def pyChoiceChar (s : String) (r : Nat) : Char :=
  s.toList.getD (r % s.toList.length) 'a'

/-- Embedding of `generate_strong_password`.  `c1..c4` drive the four seeded
`random.choice` calls, `fill` drives the remaining choices, and `sh` models
`random.shuffle` (a permutation of its input). -/
def generate_strong_password (length : Nat) (c1 c2 c3 c4 : Nat)
    (fill : Nat → Nat) (sh : List Char → List Char) : String :=
  let password : List Char :=
    [pyChoiceChar pwLowercase c1, pyChoiceChar pwUppercase c2,
     pyChoiceChar pwDigits c3, pyChoiceChar pwSpecial c4]
  let all_chars := pwLowercase ++ pwUppercase ++ pwDigits ++ pwSpecial
  let password :=
    password ++ (List.range (length - 4)).map (fun i => pyChoiceChar all_chars (fill i))
  String.mk (sh password)

/-!
## `utils/helpers.py` — `days_in_month` and
## `account/generator.py` — `generate_user_data` (birth-date portion)
-/

/-- Embedding of `days_in_month`. -/
def days_in_month (month year : Nat) : Nat :=
  if month = 4 ∨ month = 6 ∨ month = 9 ∨ month = 11 then 30
  else if month = 2 then
    if year % 4 = 0 ∧ (year % 100 ≠ 0 ∨ year % 400 = 0) then 29 else 28
  else 31

/-- `random.randint(a, b)` (inclusive bounds, `a ≤ b`), driven by an oracle. -/
def pyRandint (a b r : Nat) : Nat := a + r % (b + 1 - a)

structure BirthDate where
  birth_year : Nat
  birth_month : Nat
  birth_day : Nat
  deriving Repr, DecidableEq

/-- Embedding of the birth-date portion of `generate_user_data`:
`birth_year = randint(current_year - max_age, current_year - min_age)`,
`birth_month = randint(1, 12)`,
`birth_day = randint(1, days_in_month(birth_month, birth_year))`. -/
def generate_user_data (currentYear minAge maxAge : Nat)
    (r1 r2 r3 : Nat) : BirthDate :=
  let birth_year := pyRandint (currentYear - maxAge) (currentYear - minAge) r1
  let birth_month := pyRandint 1 12 r2
  let max_days := days_in_month birth_month birth_year
  let birth_day := pyRandint 1 max_days r3
  ⟨birth_year, birth_month, birth_day⟩

/-- Gregorian leap-year rule, written from the spec's wording: divisible by
4, with the exception that century years must be divisible by 400. -/
def gregorianLeap (year : Nat) : Bool :=
  year % 4 = 0 && (year % 100 ≠ 0 || year % 400 = 0)

/-!
## `facebook/session.py` — `_extract_facebook_tokens`

The session object holds two optional tokens `self.fb_dtsg` and `self.lsd`
(initially `None`).  `_extract_facebook_tokens` runs several `re.search`
calls over the response body; regex matching is deterministic string
processing, so each search's capture (a nonempty string when the pattern
matches, since every capture group is `+`-quantified) is supplied as part
of the response value.  The control flow of the Python function — which
assignments are unconditional and which are guarded by
`not self.fb_dtsg` / `not self.lsd` — is reproduced exactly.
-/

/-- Token state of a `FacebookSession` (`self.fb_dtsg`, `self.lsd`). -/
structure TokenState where
  fb_dtsg : Option String
  lsd : Option String
  deriving Repr, DecidableEq

/-- Captures of the two JavaScript token patterns (`DTSGInitialData…`,
`LSD…`) inside one `<script>` block of a response. -/
structure ScriptMatches where
  fbDtsgJs : Option String
  lsdJs : Option String
  deriving Repr, DecidableEq

/-- What `_extract_facebook_tokens` reads from one HTTP response:
whether `Content-Type` contains `text/html`, the captures of the four
top-level regex searches over the body, and the per-script-block captures
in document order. -/
structure TokenResponse where
  isHtml : Bool
  dtsgMatch : Option String
  dtsgAltMatch : Option String
  lsdMatch : Option String
  lsdAltMatch : Option String
  scripts : List ScriptMatches
  deriving Repr, DecidableEq

/-- One iteration of the `<script>` loop in `_extract_facebook_tokens`:
both JavaScript patterns are tried only while the corresponding token is
still falsy. -/
def applyScriptTokens (st : TokenState) (s : ScriptMatches) : TokenState :=
  let st1 :=
    if !pyTruthy st.fb_dtsg then
      match s.fbDtsgJs with
      | some v => { st with fb_dtsg := some v }
      | none => st
    else st
  if !pyTruthy st1.lsd then
    match s.lsdJs with
    | some v => { st1 with lsd := some v }
    | none => st1
  else st1

/-- Embedding of `_extract_facebook_tokens`.  Mirrors the source exactly:
the primary `"fb_dtsg":"…"` and `name="lsd" value="…"` assignments are
unconditional, while the alternate patterns and the script-block patterns
are guarded by `not self.fb_dtsg` / `not self.lsd`. -/
def extractFacebookTokens (st : TokenState) (r : TokenResponse) : TokenState :=
  if r.isHtml then
    let st :=
      match r.dtsgMatch with
      | some v => { st with fb_dtsg := some v }
      | none => st
    let st :=
      match r.dtsgAltMatch with
      | some v => if !pyTruthy st.fb_dtsg then { st with fb_dtsg := some v } else st
      | none => st
    let st :=
      match r.lsdMatch with
      | some v => { st with lsd := some v }
      | none => st
    let st :=
      match r.lsdAltMatch with
      | some v => if !pyTruthy st.lsd then { st with lsd := some v } else st
      | none => st
    r.scripts.foldl applyScriptTokens st
  else st

/-!
## `facebook/session.py` — `_handle_fb_redirects`

The response hook inspects redirect responses and, for the non-standard
`fbredirect://` scheme, refetches the URL embedded in the `uri` query
parameter with `allow_redirects=False`.  URL parsing
(`urlparse`/`parse_qs`/`unquote`) is embedded below at character level
(ASCII percent-decoding).  The `self.session.get` calls made by the hook
are modelled by a `fetch` function argument denoting the session-level GET
(including that call's own processing); the hook's token/cookie
bookkeeping on the fall-through path only mutates session token state and
issues no requests, so it does not appear in the returned value.
-/

/-- Value of a hex digit, if any (as used by percent-decoding). -/
def hexVal (c : Char) : Option Nat :=
  if '0' ≤ c ∧ c ≤ '9' then some (c.toNat - 48)
  else if 'a' ≤ c ∧ c ≤ 'f' then some (c.toNat - 87)
  else if 'A' ≤ c ∧ c ≤ 'F' then some (c.toNat - 55)
  else none

/-- Percent-decoding at character level: `%xy` with two hex digits becomes
the corresponding code point, malformed escapes are left as-is (the
behaviour of `urllib.parse.unquote` on ASCII data). -/
def unquoteChars : List Char → List Char
  | [] => []
  | '%' :: a :: b :: rest =>
    match hexVal a, hexVal b with
    | some ha, some hb => Char.ofNat (16 * ha + hb) :: unquoteChars rest
    | _, _ => '%' :: unquoteChars (a :: b :: rest)
  | c :: rest => c :: unquoteChars rest

/-- `urllib.parse.unquote` (ASCII). -/
def pyUnquote (s : String) : String := String.mk (unquoteChars s.toList)

/-- `urllib.parse.unquote_plus` (ASCII): `+` becomes a space, then
percent-decoding. -/
def pyUnquotePlus (s : String) : String :=
  String.mk (unquoteChars (s.toList.map (fun c => if c = '+' then ' ' else c)))

/-- The query component a la `urlparse`: drop everything from the first
`#`, then take everything after the first `?`. -/
def queryOf (url : String) : String :=
  let noFrag := (pySplit url '#').headD ""
  match pySplit noFrag '?' with
  | [] => ""
  | _ :: rest => String.intercalate "?" rest

/-- `urllib.parse.parse_qsl` with default options: split on `&`, skip empty
chunks, split each chunk on the first `=` (chunks without `=` and chunks
whose raw value is empty are skipped), and `unquote_plus` names and
values. -/
def parseQsl (qs : String) : List (String × String) :=
  (pySplit qs '&').filterMap fun nameValue =>
    if nameValue = "" then none
    else
      match pySplit nameValue '=' with
      | [] => none
      | [_] => none
      | n :: rest =>
        let v := String.intercalate "=" rest
        if v = "" then none
        else some (pyUnquotePlus n, pyUnquotePlus v)

/-- `parse_qs(qs)[key][0]` when `key in parse_qs(qs)`, else `none`. -/
def qsGetFirst (qs key : String) : Option String :=
  ((parseQsl qs).find? (fun p => p.1 = key)).map (·.2)

/-- HTTP response as seen by the redirect hook. -/
structure HttpResponse where
  url : String
  isRedirect : Bool
  headers : List (String × String)
  deriving Repr, DecidableEq

/-- Case-insensitive header lookup (`requests` header dicts are
case-insensitive). -/
def headerGet (hs : List (String × String)) (k : String) : Option String :=
  (hs.find? (fun p => pyLower p.1 = pyLower k)).map (·.2)

/-- A `self.session.get(url, …, allow_redirects=…)` call issued by the
hook (always with the session's base headers and configured timeout). -/
structure FetchRequest where
  url : String
  allowRedirects : Bool
  deriving Repr, DecidableEq

/-- Embedding of `_handle_fb_redirects`: returns the response the hook
hands back together with the list of session GETs it issued.  `fetch`
models `self.session.get`. -/
def handleFbRedirects (fetch : FetchRequest → HttpResponse)
    (resp : HttpResponse) : HttpResponse × List FetchRequest :=
  if resp.isRedirect ∧ (headerGet resp.headers "location").isSome then
    let redirectUrl := (headerGet resp.headers "location").getD ""
    if pyStartsWith redirectUrl "fbredirect://" then
      match qsGetFirst (queryOf redirectUrl) "uri" with
      | some encoded =>
        let req : FetchRequest := ⟨pyUnquote encoded, false⟩
        (fetch req, [req])
      | none => (resp, [])
    else if pyStartsWith redirectUrl "https://facebook.com/" ∨
        pyStartsWith redirectUrl "https://www.facebook.com/" then
      if ¬ strContains redirectUrl "m.facebook.com" ∧
          ¬ strContains redirectUrl "/mobile/" then
        let mobileUrl :=
          pyReplace (pyReplace redirectUrl "www.facebook.com" "m.facebook.com")
            "facebook.com" "m.facebook.com"
        let req : FetchRequest := ⟨mobileUrl, false⟩
        (fetch req, [req])
      else (resp, [])
    else if strContains redirectUrl "checkpoint" then
      let req : FetchRequest := ⟨redirectUrl, false⟩
      (fetch req, [req])
    else (resp, [])
  else (resp, [])

/-!
## `facebook/registration.py` — `_infer_user_id_from_cookies`,
## `_finalize_account`, and the post-POST outcome classification of
## `_mobile_registration`
-/

/-- Result of `_finalize_account`: the success dict (carrying the resolved
user id) or the degraded no-user-id dict built by
`_create_partial_account_info` (whose `success` key is `False`). -/
inductive FinalizeResult
  | success (user_id : String)
  | degraded
  deriving Repr, DecidableEq

/-- Last stage of `_infer_user_id_from_cookies`: the loop over
`['i_user', 'presence', 'a_user']` returning the first present all-digit
cookie value. -/
def inferFromIdCookies (cookies : List (String × String)) : Option String :=
  ["i_user", "presence", "a_user"].findSome? fun name =>
    match dictGet cookies name with
    | some v => if pyIsDigit v then some v else none
    | none => none

/-- Middle stage of `_infer_user_id_from_cookies`: scan the dot-separated
parts of the `fr` cookie for the first all-digit part longer than 8
characters, else fall through to the id-cookie loop. -/
def inferFromFr (cookies : List (String × String)) : Option String :=
  match dictGet cookies "fr" with
  | some v =>
    match (pySplit v '.').find? (fun part => pyIsDigit part && decide (8 < part.length)) with
    | some part => some part
    | none => inferFromIdCookies cookies
  | none => inferFromIdCookies cookies

/-- Embedding of `_infer_user_id_from_cookies`: first the `xs` cookie
(colon-split, first part all-digit, at least two parts), then the `fr`
scan, then the id-cookie loop. -/
def inferUserIdFromCookies (cookies : List (String × String)) : Option String :=
  match dictGet cookies "xs" with
  | some v =>
    let xs_parts := pySplit v ':'
    if 2 ≤ xs_parts.length ∧ pyIsDigit (xs_parts.headD "") then
      some (xs_parts.headD "")
    else inferFromFr cookies
  | none => inferFromFr cookies

/-- Embedding of `_finalize_account`: `user_id = user_id or c_user`; a
truthy id yields the success dict, else the id inferred from cookies is
used, else the degraded dict. -/
def finalizeAccount (userId : Option String) (cookies : List (String × String)) :
    FinalizeResult :=
  let c_user := (dictGet cookies "c_user").getD ""
  let user_id := if pyTruthy userId then userId.getD "" else c_user
  if user_id ≠ "" then .success user_id
  else
    match inferUserIdFromCookies cookies with
    | some inferred => if inferred ≠ "" then .success inferred else .degraded
    | none => .degraded

/-- `re.search(lit + r'(\d+)', s)`: find the leftmost occurrence of the
literal that is followed by at least one digit and capture the maximal
digit run after it. -/
def searchLitDigits (lit : List Char) : List Char → Option String
  | [] => none
  | c :: rest =>
    if lit.isPrefixOf (c :: rest) then
      let ds := ((c :: rest).drop lit.length).takeWhile Char.isDigit
      if ds ≠ [] then some (String.mk ds) else searchLitDigits lit rest
    else searchLitDigits lit rest

/-- `re.search(r'\/(\d{8,})\/', s)`: a slash, at least eight digits,
then a slash; captures the digit run. -/
def searchSlashDigits : List Char → Option String
  | [] => none
  | c :: rest =>
    if c = '/' then
      let ds := rest.takeWhile Char.isDigit
      if 8 ≤ ds.length ∧ (rest.drop ds.length).headD ' ' = '/' then some (String.mk ds)
      else searchSlashDigits rest
    else searchSlashDigits rest

/-- Embedding of `_extract_user_id_from_url`: the five URL patterns in
source order. -/
def extractUserIdFromUrl (url : String) : Option String :=
  let cs := url.toList
  match searchLitDigits "user=".toList cs with
  | some u => some u
  | none =>
    match searchLitDigits "uid=".toList cs with
    | some u => some u
    | none =>
      match searchLitDigits "id=".toList cs with
      | some u => some u
      | none =>
        match searchLitDigits "profile.php?id=".toList cs with
        | some u => some u
        | none => searchSlashDigits cs

/-- What the post-POST classification in `_mobile_registration` reads from
the registration response: the session cookie jar, the response URL and
body text, plus the two BeautifulSoup-derived observations (whether a
`login_form` form exists and the extracted error messages). -/
structure RegResponse where
  cookies : List (String × String)
  url : String
  text : String
  hasLoginForm : Bool
  errorMessages : List String
  deriving Repr, DecidableEq

/-- Outcome of the classification sequence after the registration POST in
`_mobile_registration`. -/
inductive MobileRegOutcome
  | finalized (r : FinalizeResult)
  | verificationInfo
  | loginAttempt
  | failed
  deriving Repr, DecidableEq

/-- The verification phrases scanned for in the response body. -/
def verificationPhrases : List String :=
  ["confirmation code", "verification code", "check your email", "verify your account"]

/-- Embedding of the outcome classification after the registration POST in
`_mobile_registration` (source order): non-empty `c_user` cookie →
finalize with it; checkpoint-like URL → verification info; welcome/home
URL → finalize with an id mined from the URL (if any); `login_form` in the
body → login fallback; verification phrases in the lowercased body →
verification info; error messages with attempts remaining → `False`;
otherwise the login fallback. -/
def classifyMobileRegistration (registrationAttempts maxRegistrationAttempts : Nat)
    (resp : RegResponse) : MobileRegOutcome :=
  let cookies := resp.cookies
  if pyTruthy (dictGet cookies "c_user") then
    .finalized (finalizeAccount (dictGet cookies "c_user") cookies)
  else if ["checkpoint", "confirmemail", "confirm_email", "confirmation"].any
      (fun term => strContains resp.url term) then
    .verificationInfo
  else if strContains resp.url "welcome" || strContains resp.url "home" then
    match extractUserIdFromUrl resp.url with
    | some uid => .finalized (finalizeAccount (some uid) cookies)
    | none => .finalized (finalizeAccount none cookies)
  else if resp.hasLoginForm then .loginAttempt
  else if verificationPhrases.any (fun p => strContains (pyLower resp.text) p) then
    .verificationInfo
  else if resp.errorMessages ≠ [] ∧ registrationAttempts < maxRegistrationAttempts then
    .failed
  else .loginAttempt

/-!
## `proxies/proxy_manager.py` — `ProxyManager`

A proxy dict as parsed from a list line carries `ip`, `port`, optionally
`username`/`password`, and a `url` string derived deterministically from
the other fields at parse time; dict equality therefore coincides with
equality of the parsed fields, which is what the `Proxy` structure
records.  `random.choice` is driven by an index oracle.  The persisted
`working_proxies.txt` content is carried in the state as the list of lines
last written by `_save_working_proxies`.
-/

/-- A proxy endpoint (`ip`, `port`, optional `username`/`password`). -/
structure Proxy where
  ip : String
  port : String
  auth : Option (String × String)
  deriving Repr, DecidableEq

/-- The `url` value stored in the proxy dict at parse time. -/
def proxyUrl (p : Proxy) : String :=
  match p.auth with
  | some (u, pw) => "http://" ++ u ++ ":" ++ pw ++ "@" ++ p.ip ++ ":" ++ p.port
  | none => "http://" ++ p.ip ++ ":" ++ p.port

/-- The line `_save_working_proxies` writes for one proxy. -/
def proxyLine (p : Proxy) : String :=
  match p.auth with
  | some (u, pw) => p.ip ++ ":" ++ p.port ++ ":" ++ u ++ ":" ++ pw
  | none => p.ip ++ ":" ++ p.port

/-- Mutable state of a `ProxyManager` together with the last persisted
content of `working_proxies.txt`. -/
structure PMState where
  proxies : List Proxy
  working_proxies : List Proxy
  current_proxy : Option Proxy
  savedWorkingFile : List String
  deriving Repr, DecidableEq

/-- `random.choice` over a proxy list, driven by an oracle index. -/
def pyChoiceList (l : List Proxy) (r : Nat) : Option Proxy := l.get? (r % l.length)

/-- Embedding of `get_proxy`: a random working proxy if any, else a random
proxy, else `None` (leaving `current_proxy` untouched). -/
def get_proxy (st : PMState) (r : Nat) : PMState × Option Proxy :=
  if st.working_proxies ≠ [] then
    let p := pyChoiceList st.working_proxies r
    ({ st with current_proxy := p }, p)
  else if st.proxies ≠ [] then
    let p := pyChoiceList st.proxies r
    ({ st with current_proxy := p }, p)
  else (st, none)

/-- Embedding of `get_next_proxy`: step to the successor (cyclically) of
the current proxy in the preferred list; `list.index` raising `ValueError`
(current proxy absent) or an unset current proxy fall back to `get_proxy`. -/
def get_next_proxy (st : PMState) (r : Nat) : PMState × Option Proxy :=
  if st.working_proxies ≠ [] then
    match st.current_proxy with
    | none => get_proxy st r
    | some c =>
      match st.working_proxies.indexOf? c with
      | some i =>
        let p := st.working_proxies.get? ((i + 1) % st.working_proxies.length)
        ({ st with current_proxy := p }, p)
      | none => get_proxy st r
  else if st.proxies ≠ [] then
    match st.current_proxy with
    | none => get_proxy st r
    | some c =>
      match st.proxies.indexOf? c with
      | some i =>
        let p := st.proxies.get? ((i + 1) % st.proxies.length)
        ({ st with current_proxy := p }, p)
      | none => get_proxy st r
  else (st, none)

/-- Embedding of `remove_current_proxy`: remove the current proxy (first
occurrence, as Python `list.remove`) from each list containing it,
re-persist the working file when the working list changed, then clear
`current_proxy`. -/
def remove_current_proxy (st : PMState) : PMState × Bool :=
  match st.current_proxy with
  | none => (st, false)
  | some p =>
    let wtriple :=
      if p ∈ st.working_proxies then
        let w := st.working_proxies.erase p
        (w, w.map proxyLine, true)
      else (st.working_proxies, st.savedWorkingFile, false)
    let ppair :=
      if p ∈ st.proxies then (st.proxies.erase p, true) else (st.proxies, false)
    ({ proxies := ppair.1, working_proxies := wtriple.1, current_proxy := none,
       savedWorkingFile := wtriple.2.1 }, wtriple.2.2 || ppair.2)

/-- A proxy-selection call made after eviction. -/
inductive PMOp
  | getP (r : Nat)
  | getNext (r : Nat)
  deriving Repr, DecidableEq

/-- Run one selection call. -/
def runPMOp (st : PMState) : PMOp → PMState × Option Proxy
  | .getP r => get_proxy st r
  | .getNext r => get_next_proxy st r

/-- Run a sequence of selection calls, collecting the returned proxies. -/
def runPMOps (st : PMState) : List PMOp → PMState × List (Option Proxy)
  | [] => (st, [])
  | op :: ops =>
    let r1 := runPMOp st op
    let r2 := runPMOps r1.1 ops
    (r2.1, r1.2 :: r2.2)

/-!
## `main.py` — `try_with_proxy`

Each iteration draws a proxy, runs `fb_reg.create_account()` (whose
outcome — a returned value or one of the caught exception classes — is
supplied by the `runs` oracle, indexed by attempt number), returns a
truthy result immediately, and on any caught exception calls
`remove_current_proxy` before retrying.  The embedding additionally
returns the final proxy-manager state and the list of proxies evicted, in
order.
-/

/-- A truthy return value of `create_account` (always a nonempty dict:
the success dict, the degraded no-id dict, or the verification dict). -/
inductive WorkflowResult
  | success (user_id : String)
  | degradedInfo
  | verificationRequired
  deriving Repr, DecidableEq

/-- Outcome of one `create_account()` call inside `try_with_proxy`:
a returned value (`result none` models the falsy `False` return) or one
of the exception classes caught by the loop. -/
inductive RunOutcome
  | result (r : Option WorkflowResult)
  | tooManyRedirects
  | connectionError
  | timeout
  | otherException
  deriving Repr, DecidableEq

/-- Whether an outcome is an exception (of any of the four caught kinds). -/
def isExceptionOutcome : RunOutcome → Bool
  | .result _ => false
  | _ => true

/-- Return value of `try_with_proxy`. -/
inductive TryResult
  | ok (r : WorkflowResult)
  | returnedFalse
  deriving Repr, DecidableEq

/-- The loop of `try_with_proxy` from iteration `attempt` with `remaining`
iterations left.  Each caught exception class (`TooManyRedirects`,
`ConnectionError`, `Timeout`, and the final catch-all `Exception`) has its
own branch, mirroring the four `except` clauses, each of which calls
`remove_current_proxy`. -/
def tryWithProxyFrom (runs : Nat → RunOutcome) (choices : Nat → Nat) :
    Nat → Nat → PMState → TryResult × PMState × List Proxy
  | _, 0, st => (.returnedFalse, st, [])
  | attempt, remaining + 1, st =>
    let gp := get_proxy st (choices attempt)
    match gp.2 with
    | none => (.returnedFalse, gp.1, [])
    | some p =>
      match runs attempt with
      | .result (some d) => (.ok d, gp.1, [])
      | .result none => tryWithProxyFrom runs choices (attempt + 1) remaining gp.1
      | .tooManyRedirects =>
        let rec1 := tryWithProxyFrom runs choices (attempt + 1) remaining
          (remove_current_proxy gp.1).1
        (rec1.1, rec1.2.1, p :: rec1.2.2)
      | .connectionError =>
        let rec1 := tryWithProxyFrom runs choices (attempt + 1) remaining
          (remove_current_proxy gp.1).1
        (rec1.1, rec1.2.1, p :: rec1.2.2)
      | .timeout =>
        let rec1 := tryWithProxyFrom runs choices (attempt + 1) remaining
          (remove_current_proxy gp.1).1
        (rec1.1, rec1.2.1, p :: rec1.2.2)
      | .otherException =>
        let rec1 := tryWithProxyFrom runs choices (attempt + 1) remaining
          (remove_current_proxy gp.1).1
        (rec1.1, rec1.2.1, p :: rec1.2.2)

/-- Embedding of `try_with_proxy`. -/
def try_with_proxy (runs : Nat → RunOutcome) (choices : Nat → Nat)
    (st : PMState) (max_attempts : Nat) : TryResult × PMState × List Proxy :=
  tryWithProxyFrom runs choices 0 max_attempts st

/-!
## `proxies/proxy_manager.py` — `load_proxies` and the two file loaders

The file system and the remote provider are modelled as a record of
optional line lists (`none` meaning the file does not exist, resp. the
remote request raised).
-/

/-- File-system/remote configuration seen by `load_proxies`. -/
structure ProxyFS where
  workingFile : Option (List String)
  proxyFile : Option (List String)
  apiResult : Option (List String)
  deriving Repr, DecidableEq

/-- ASCII whitespace stripped by Python `str.strip()`. -/
def isPySpace (c : Char) : Bool :=
  c = ' ' || c = '	' || c = '
' || c = '
' || c = '' || c = ''

/-- Python `s.strip()`. -/
def pyStrip (s : String) : String :=
  String.mk (((s.toList.dropWhile isPySpace).reverse.dropWhile isPySpace).reverse)

/-- One line of `_load_working_proxies`: after stripping, skip blank and
`#` lines; accept `ip:port:user:pass` and `ip:port`; silently skip other
shapes (this loader has no `user:pass@ip:port` branch). -/
def parseWorkingLine (line0 : String) : Option Proxy :=
  let line := pyStrip line0
  if line = "" || pyStartsWith line "#" then none
  else
    let parts := pySplit line ':'
    if parts.length = 4 then
      some ⟨parts.getD 0 "", parts.getD 1 "", some (parts.getD 2 "", parts.getD 3 "")⟩
    else if parts.length = 2 then
      some ⟨parts.getD 0 "", parts.getD 1 "", none⟩
    else none

/-- Embedding of `_load_working_proxies` (parsing part; the function
returns whether at least one proxy was loaded). -/
def load_working_proxies (lines : List String) : List Proxy :=
  lines.filterMap parseWorkingLine

/-- The parsing loop of `_load_proxies_from_file`: like the working-file
loader plus a `user:pass@ip:port` branch whose tuple unpacking raises on
any other shape; the boolean is `false` when that exception aborts the
loop (the proxies appended so far are kept, as in the source). -/
def parseRawLines : List String → List Proxy → List Proxy × Bool
  | [], acc => (acc, true)
  | l :: ls, acc =>
    let line := pyStrip l
    if line = "" || pyStartsWith line "#" then parseRawLines ls acc
    else
      let parts := pySplit line ':'
      if parts.length = 4 then
        parseRawLines ls
          (acc ++ [⟨parts.getD 0 "", parts.getD 1 "",
            some (parts.getD 2 "", parts.getD 3 "")⟩])
      else if parts.length = 2 then
        parseRawLines ls (acc ++ [⟨parts.getD 0 "", parts.getD 1 "", none⟩])
      else if strContains line "@" then
        match pySplit line '@' with
        | [auth, server] =>
          match pySplit auth ':', pySplit server ':' with
          | [u, pw], [ip, port] => parseRawLines ls (acc ++ [⟨ip, port, some (u, pw)⟩])
          | _, _ => (acc, false)
        | _ => (acc, false)
      else parseRawLines ls acc

/-- Embedding of `_load_proxies_from_file`: on a completed parse the
result is `len(proxies) > 0`; an exception yields `False`. -/
def load_proxies_from_file (lines : List String) : List Proxy × Bool :=
  let pr := parseRawLines lines []
  (pr.1, if pr.2 then decide (0 < pr.1.length) else false)

/-- Result of `load_proxies`: the returned boolean and the populated
lists. -/
structure LoadResult where
  ok : Bool
  working_proxies : List Proxy
  proxies : List Proxy
  deriving Repr, DecidableEq

/-- The fall-through of `load_proxies` past the working-file branch: the
raw file if it exists, else fetch from the API (saving the body as the raw
file) and load that. -/
def loadProxiesFallback (fs : ProxyFS) (working : List Proxy) : LoadResult :=
  match fs.proxyFile with
  | some plines =>
    let pr := load_proxies_from_file plines
    ⟨pr.2, working, pr.1⟩
  | none =>
    match fs.apiResult with
    | none => ⟨false, working, []⟩
    | some content =>
      let pr := load_proxies_from_file content
      ⟨pr.2, working, pr.1⟩

/-- Embedding of `load_proxies`: if `working_proxies.txt` exists and
yields at least one entry, also load the raw file as backup and return
`True`; otherwise fall through to the raw file, else the API. -/
def load_proxies (fs : ProxyFS) : LoadResult :=
  match fs.workingFile with
  | some wlines =>
    let working := load_working_proxies wlines
    if 0 < working.length then
      let backup :=
        match fs.proxyFile with
        | some plines => (parseRawLines plines []).1
        | none => []
      ⟨true, working, backup⟩
    else loadProxiesFallback fs working
  | none => loadProxiesFallback fs []

/-- Whether the cache file is present and yields at least one entry. -/
def cacheYields (fs : ProxyFS) : Bool :=
  match fs.workingFile with
  | some wl => 0 < (load_working_proxies wl).length
  | none => false

/-!
## `facebook/registration.py` — `_fill_registration_form`

The scraped field map is a Python dict (insertion-ordered, unique keys),
modelled as an association list.  Every overwrite loop in the source has
the shape `for field in list(form_data.keys()): if cond: form_data[field] =
value`, i.e. an in-place update of every entry whose key (and, for the
terms rules, current value) matches — embedded as `applyRule`.  The
pattern tables are taken verbatim from the source; `random`/`uuid` draws
(`reg_instance`) and `datetime.now().year` are oracle parameters. -/

/-- The identity fields `_fill_registration_form` reads
(`self.user_data` fields and `self.email` is passed separately). -/
structure UserData where
  first_name : String
  last_name : String
  birth_year : Nat
  birth_month : Nat
  birth_day : Nat
  gender : String
  password : String
  device_id : String
  deriving Repr, DecidableEq

/-- A scraped field map. -/
abbrev FormData := List (String × String)

/-- One overwrite pass: update in place every entry matching `cond`. -/
def applyRule (cond : String → String → Bool) (v : String) (m : FormData) : FormData :=
  m.map (fun q => if cond q.1 q.2 then (q.1, v) else q)

/-- An ordered table of overwrite rules (condition, new value). -/
abbrev RuleList := List ((String → String → Bool) × String)

/-- Apply a rule table left to right (each rule is one full pass over the
field map, as in the source's nested loops). -/
def applyRules (rules : RuleList) (m : FormData) : FormData :=
  rules.foldl (fun acc cv => applyRule cv.1 cv.2 acc) m

/-- The value a rule table leaves at key `k` given current value `w`
(used to state that `applyRules` acts entrywise). -/
def applyRulesVal (rules : RuleList) (k : String) (w : String) : String :=
  rules.foldl (fun x cv => if cv.1 k x then cv.2 else x) w

/-- `if field not in form_data: form_data[field] = value`. -/
def addIfAbsent (key v : String) (m : FormData) : FormData :=
  if dictHas m key then m else m ++ [(key, v)]

/-- The birthday day/month/year shape of the source: if either naming
convention's key is present, assign into the present one (preferring the
first). -/
def bdayPairStep (key1 key2 v : String) (m : FormData) : FormData :=
  if dictHas m key1 || dictHas m key2 then
    applyRule (fun k _ => k == (if dictHas m key1 then key1 else key2)) v m
  else m

/-- `name_field_patterns` from the source (pattern, replacement value). -/
def name_field_patterns (u : UserData) : List (String × String) :=
  [("firstname", u.first_name), ("lastname", u.last_name),
   ("first_name", u.first_name), ("last_name", u.last_name),
   ("name_first", u.first_name), ("name_last", u.last_name),
   ("full_name", u.first_name ++ " " ++ u.last_name),
   ("firstName", u.first_name), ("lastName", u.last_name)]

def email_field_patterns : List String :=
  ["email", "reg_email", "contactpoint", "email_address", "emailaddress"]

def confirmation_patterns : List String := ["confirm", "verification", "repeat"]

def password_patterns : List String := ["pass", "passwd", "password"]

def gender_patterns : List String := ["sex", "gender"]

def terms_patterns : List String := ["terms", "privacy", "tos", "policy", "agree"]

/-- Name rules: `field_pattern.lower() in field.lower()` → value. -/
def nameRules (u : UserData) : RuleList :=
  (name_field_patterns u).map
    (fun pv => (fun k _ => strContains (pyLower k) (pyLower pv.1), pv.2))

/-- Email rules: `pattern in field.lower()` → the supplied address. -/
def emailRules (email : String) : RuleList :=
  email_field_patterns.map (fun pat => (fun k _ => strContains (pyLower k) pat, email))

/-- Confirmation rules: confirm-like pattern and an email-like pattern
both in the name → the supplied address. -/
def confirmationRules (email : String) : RuleList :=
  confirmation_patterns.map
    (fun pat => (fun k _ => strContains (pyLower k) pat &&
      email_field_patterns.any (fun ep => strContains (pyLower k) ep), email))

def passwordRules (u : UserData) : RuleList :=
  password_patterns.map (fun pat => (fun k _ => strContains (pyLower k) pat, u.password))

def genderRules (u : UserData) : RuleList :=
  gender_patterns.map (fun pat => (fun k _ => strContains (pyLower k) pat, u.gender))

/-- Terms rules: terms-like pattern in the name and current value `''` or
`'0'` → `'1'`. -/
def termsRules : RuleList :=
  terms_patterns.map
    (fun pat => (fun k w => strContains (pyLower k) pat && (w == "" || w == "0"), "1"))

/-- The `common_fields` dict injected at the end (insertion order). -/
def commonFields (u : UserData) (reg_instance : String) : List (String × String) :=
  [("websubmit", "1"), ("referrer", "mobile_fb"), ("locale", "en_US"),
   ("reg_instance", reg_instance), ("contactpoint_type", "email"),
   ("submission_request", "true"), ("is_birthday_verified", "true"),
   ("device_id", u.device_id)]

/-- The final loop: inject each common field only when absent. -/
def addCommonFields (u : UserData) (reg_instance : String) (m : FormData) : FormData :=
  (commonFields u reg_instance).foldl (fun acc kv => addIfAbsent kv.1 kv.2 acc) m

/-- Embedding of `_fill_registration_form`, step for step in source order:
the three birthday day/month/year pair assignments, the desktop `day`,
`month`, `year` keys, the combined `birthday` key, the `birthday_age` key
(using the oracle `currentYear` for `datetime.now().year`), then the name,
email, confirmation-email, password, gender and terms overwrite loops, and
finally the injection of the common fields for absent keys only. -/
def fill_registration_form (u : UserData) (email : String) (currentYear : Int)
    (reg_instance : String) (m0 : FormData) : FormData :=
  let m := bdayPairStep "birthday_day" "birthday[day]" (toString u.birth_day) m0
  let m := bdayPairStep "birthday_month" "birthday[month]" (toString u.birth_month) m
  let m := bdayPairStep "birthday_year" "birthday[year]" (toString u.birth_year) m
  let m := applyRule (fun k _ => k == "day") (toString u.birth_day) m
  let m := applyRule (fun k _ => k == "month") (toString u.birth_month) m
  let m := applyRule (fun k _ => k == "year") (toString u.birth_year) m
  let m := applyRule (fun k _ => k == "birthday")
    (toString u.birth_month ++ "/" ++ toString u.birth_day ++ "/" ++
      toString u.birth_year) m
  let m := applyRule (fun k _ => k == "birthday_age")
    (toString (currentYear - (u.birth_year : Int))) m
  let m := applyRules (nameRules u) m
  let m := applyRules (emailRules email) m
  let m := applyRules (confirmationRules email) m
  let m := applyRules (passwordRules u) m
  let m := applyRules (genderRules u) m
  let m := applyRules termsRules m
  addCommonFields u reg_instance m

/-- The key the source assigns into for a birthday pair. -/
def chooseKey (m : FormData) (key1 key2 : String) : String :=
  if dictHas m key1 then key1 else key2

/-- The eight exact-key birthday rules as a rule table. -/
def bdayKeyRules (u : UserData) (currentYear : Int) (c1 c2 c3 : String) : RuleList :=
  [(fun k _ => k == c1, toString u.birth_day),
   (fun k _ => k == c2, toString u.birth_month),
   (fun k _ => k == c3, toString u.birth_year),
   (fun k _ => k == "day", toString u.birth_day),
   (fun k _ => k == "month", toString u.birth_month),
   (fun k _ => k == "year", toString u.birth_year),
   (fun k _ => k == "birthday",
     toString u.birth_month ++ "/" ++ toString u.birth_day ++ "/" ++
       toString u.birth_year),
   (fun k _ => k == "birthday_age", toString (currentYear - (u.birth_year : Int)))]

/-- All value-independent (key-conditioned) rules, in source order. -/
def keyRules (u : UserData) (email : String) (currentYear : Int)
    (c1 c2 c3 : String) : RuleList :=
  bdayKeyRules u currentYear c1 c2 c3 ++ nameRules u ++ emailRules email ++
    confirmationRules email ++ passwordRules u ++ genderRules u

/-- The full overwrite table of `_fill_registration_form` (everything
before the common-field injection). -/
def fullRules (u : UserData) (email : String) (currentYear : Int)
    (c1 c2 c3 : String) : RuleList :=
  keyRules u email currentYear c1 c2 c3 ++ termsRules

end FBSpec

namespace FBSpec

lemma pyRandint_mem {a b : Nat} (h : a ≤ b) (r : Nat) :
    a ≤ pyRandint a b r ∧ pyRandint a b r ≤ b := by
  unfold pyRandint
  have hpos : 0 < b + 1 - a := by omega
  have := Nat.mod_lt r hpos
  omega

lemma days_in_month_pos (m y : Nat) : 1 ≤ days_in_month m y := by
  unfold days_in_month
  split
  · omega
  · split
    · split <;> omega
    · omega

lemma pyChoiceChar_mem (s : String) (hs : s.toList ≠ []) (r : Nat) :
    pyChoiceChar s r ∈ s.toList := by
  unfold pyChoiceChar
  have hlen : 0 < s.toList.length := List.length_pos.mpr hs
  rw [List.getD_eq_getElem _ _ (Nat.mod_lt _ hlen)]
  exact List.getElem_mem _

lemma applyScriptTokens_of_truthy {st : TokenState} (s : ScriptMatches)
    (h1 : pyTruthy st.fb_dtsg = true) (h2 : pyTruthy st.lsd = true) :
    applyScriptTokens st s = st := by
  unfold applyScriptTokens
  simp [h1, h2]

lemma foldl_applyScriptTokens_of_truthy {st : TokenState} (ss : List ScriptMatches)
    (h1 : pyTruthy st.fb_dtsg = true) (h2 : pyTruthy st.lsd = true) :
    ss.foldl applyScriptTokens st = st := by
  induction ss with
  | nil => rfl
  | cons s ss ih => rw [List.foldl_cons, applyScriptTokens_of_truthy s h1 h2, ih]

lemma pyIsDigit_ne_empty {s : String} (h : pyIsDigit s = true) : s ≠ "" := by
  unfold pyIsDigit at h
  rcases Bool.and_eq_true_iff.mp h with ⟨h1, _⟩
  exact of_decide_eq_true h1

lemma finalizeAccount_some (uid : String) (cookies : List (String × String))
    (h : uid ≠ "") : finalizeAccount (some uid) cookies = .success uid := by
  unfold finalizeAccount
  simp [pyTruthy, h]

lemma finalizeAccount_none_of_infer (cookies : List (String × String)) (uid : String)
    (hcu : dictGet cookies "c_user" = none)
    (hinf : inferUserIdFromCookies cookies = some uid) (hne : uid ≠ "") :
    finalizeAccount none cookies = .success uid := by
  unfold finalizeAccount
  rw [hcu, hinf]
  simp [pyTruthy, hne]

lemma inferFromIdCookies_of_presence (cookies : List (String × String)) (v : String)
    (hp : dictGet cookies "presence" = some v) (hv : pyIsDigit v = true) :
    ∃ uid, inferFromIdCookies cookies = some uid ∧ pyIsDigit uid = true ∧
      (dictGet cookies "i_user" = some uid ∨ dictGet cookies "presence" = some uid) := by
  unfold inferFromIdCookies
  simp only [List.findSome?_cons, hp]
  cases hiu : dictGet cookies "i_user" with
  | some w =>
    by_cases hw : pyIsDigit w = true
    · exact ⟨w, by simp [hw], hw, Or.inl rfl⟩
    · exact ⟨v, by simp [List.findSome?_cons, hw, hv], hv, Or.inr rfl⟩
  | none =>
    exact ⟨v, by simp [List.findSome?_cons, hv], hv, Or.inr rfl⟩

lemma get_proxy_mem {st : PMState} {r : Nat} {p : Proxy}
    (h : (get_proxy st r).2 = some p) :
    p ∈ st.working_proxies ∨ p ∈ st.proxies := by
  unfold get_proxy pyChoiceList at h
  split at h
  · exact Or.inl (List.get?_mem h)
  · split at h
    · exact Or.inr (List.get?_mem h)
    · exact absurd h (by simp)

lemma get_proxy_fields (st : PMState) (r : Nat) :
    (get_proxy st r).1.proxies = st.proxies ∧
    (get_proxy st r).1.working_proxies = st.working_proxies ∧
    (get_proxy st r).1.savedWorkingFile = st.savedWorkingFile := by
  unfold get_proxy
  split
  · exact ⟨rfl, rfl, rfl⟩
  · split
    · exact ⟨rfl, rfl, rfl⟩
    · exact ⟨rfl, rfl, rfl⟩

lemma get_next_proxy_mem {st : PMState} {r : Nat} {p : Proxy}
    (h : (get_next_proxy st r).2 = some p) :
    p ∈ st.working_proxies ∨ p ∈ st.proxies := by
  unfold get_next_proxy at h
  split at h
  · split at h
    · exact get_proxy_mem h
    · split at h
      · exact Or.inl (List.get?_mem h)
      · exact get_proxy_mem h
  · split at h
    · split at h
      · exact get_proxy_mem h
      · split at h
        · exact Or.inr (List.get?_mem h)
        · exact get_proxy_mem h
    · exact absurd h (by simp)

lemma get_next_proxy_fields (st : PMState) (r : Nat) :
    (get_next_proxy st r).1.proxies = st.proxies ∧
    (get_next_proxy st r).1.working_proxies = st.working_proxies ∧
    (get_next_proxy st r).1.savedWorkingFile = st.savedWorkingFile := by
  unfold get_next_proxy
  split
  · split
    · exact get_proxy_fields st r
    · split
      · exact ⟨rfl, rfl, rfl⟩
      · exact get_proxy_fields st r
  · split
    · split
      · exact get_proxy_fields st r
      · split
        · exact ⟨rfl, rfl, rfl⟩
        · exact get_proxy_fields st r
    · exact ⟨rfl, rfl, rfl⟩

lemma runPMOp_mem {st : PMState} {op : PMOp} {p : Proxy}
    (h : (runPMOp st op).2 = some p) :
    p ∈ st.working_proxies ∨ p ∈ st.proxies := by
  cases op with
  | getP r => exact get_proxy_mem h
  | getNext r => exact get_next_proxy_mem h

lemma runPMOp_fields (st : PMState) (op : PMOp) :
    (runPMOp st op).1.proxies = st.proxies ∧
    (runPMOp st op).1.working_proxies = st.working_proxies ∧
    (runPMOp st op).1.savedWorkingFile = st.savedWorkingFile := by
  cases op with
  | getP r => exact get_proxy_fields st r
  | getNext r => exact get_next_proxy_fields st r

lemma runPMOps_not_mem (p : Proxy) :
    ∀ (ops : List PMOp) (st : PMState),
      p ∉ st.working_proxies → p ∉ st.proxies →
      some p ∉ (runPMOps st ops).2 := by
  intro ops
  induction ops with
  | nil =>
    intro st _ _
    simp [runPMOps]
  | cons op ops ih =>
    intro st hw hp
    unfold runPMOps
    intro hmem
    rcases List.mem_cons.mp hmem with heq | htail
    · rcases runPMOp_mem heq.symm with h | h
      · exact hw h
      · exact hp h
    · obtain ⟨h1, h2, _⟩ := runPMOp_fields st op
      exact ih (runPMOp st op).1 (h2 ▸ hw) (h1 ▸ hp) htail

lemma not_mem_erase_of_count_le_one {l : List Proxy} {p : Proxy}
    (h : l.count p ≤ 1) : p ∉ l.erase p := by
  intro hmem
  have h1 : (l.erase p).count p = l.count p - 1 := List.count_erase_self p l
  have h2 : 0 < (l.erase p).count p := List.count_pos_iff.mpr hmem
  omega

lemma remove_current_proxy_spec (st : PMState) (p : Proxy)
    (hc : st.current_proxy = some p) :
    (remove_current_proxy st).1.working_proxies =
      (if p ∈ st.working_proxies then st.working_proxies.erase p
       else st.working_proxies) ∧
    (remove_current_proxy st).1.proxies =
      (if p ∈ st.proxies then st.proxies.erase p else st.proxies) ∧
    (remove_current_proxy st).1.savedWorkingFile =
      (if p ∈ st.working_proxies then (st.working_proxies.erase p).map proxyLine
       else st.savedWorkingFile) := by
  unfold remove_current_proxy
  rw [hc]
  by_cases hw : p ∈ st.working_proxies <;> by_cases hp : p ∈ st.proxies <;>
    simp [hw, hp]

lemma tryWithProxyFrom_evictions (runs : Nat → RunOutcome) (choices : Nat → Nat) :
    ∀ (r a : Nat) (st : PMState),
      (tryWithProxyFrom runs choices a r st).2.2 ≠ [] →
      ∃ i, a ≤ i ∧ i < a + r ∧ isExceptionOutcome (runs i) = true := by
  intro r
  induction r with
  | zero =>
    intro a st h
    simp [tryWithProxyFrom] at h
  | succ n ih =>
    intro a st h
    rcases hgp : (get_proxy st (choices a)).2 with _ | p
    · simp only [tryWithProxyFrom, hgp] at h
      exact absurd rfl h
    · cases hrun : runs a with
      | result ro =>
        cases ro with
        | some d =>
          simp only [tryWithProxyFrom, hgp, hrun] at h
          exact absurd rfl h
        | none =>
          simp only [tryWithProxyFrom, hgp, hrun] at h
          obtain ⟨i, hi1, hi2, hie⟩ := ih (a + 1) _ h
          exact ⟨i, by omega, by omega, hie⟩
      | tooManyRedirects =>
        exact ⟨a, le_refl a, by omega, by rw [hrun]; rfl⟩
      | connectionError =>
        exact ⟨a, le_refl a, by omega, by rw [hrun]; rfl⟩
      | timeout =>
        exact ⟨a, le_refl a, by omega, by rw [hrun]; rfl⟩
      | otherException =>
        exact ⟨a, le_refl a, by omega, by rw [hrun]; rfl⟩

lemma dictGet_applyRule (c : String → String → Bool) (v : String) (m : FormData) (k : String) :
    dictGet (applyRule c v m) k = (dictGet m k).map (fun w => if c k w then v else w) := by
  induction m with
  | nil => rfl
  | cons q m ih =>
    rcases q with ⟨qk, qv⟩
    by_cases hk : qk = k
    · subst hk
      by_cases hc : c qk qv
      · simp [applyRule, dictGet, List.find?_cons, hc]
      · simp [applyRule, dictGet, List.find?_cons, hc]
    · by_cases hc : c qk qv
      · simpa [applyRule, dictGet, List.find?_cons, hc, hk] using ih
      · simpa [applyRule, dictGet, List.find?_cons, hc, hk] using ih

lemma dictHas_applyRule (c : String → String → Bool) (v : String) (m : FormData) (k : String) :
    dictHas (applyRule c v m) k = dictHas m k := by
  induction m with
  | nil => rfl
  | cons q m ih =>
    rcases q with ⟨qk, qv⟩
    by_cases hk : qk = k
    · subst hk
      by_cases hc : c qk qv <;> simp [applyRule, dictHas, List.find?_cons, hc]
    · by_cases hc : c qk qv <;>
        simpa [applyRule, dictHas, List.find?_cons, hc, hk] using ih

lemma applyRule_eq_self_of_not_has (key v : String) (m : FormData)
    (h : dictHas m key = false) :
    applyRule (fun k _ => k == key) v m = m := by
  induction m with
  | nil => rfl
  | cons q m ih =>
    rcases q with ⟨qk, qv⟩
    by_cases hk : qk = key
    · subst hk
      simp [dictHas, List.find?_cons] at h
    · have hm : dictHas m key = false := by
        simpa [dictHas, List.find?_cons, hk] using h
      simp [applyRule, hk] at ih ⊢
      exact ih hm

lemma applyRules_append (l1 l2 : RuleList) (m : FormData) :
    applyRules (l1 ++ l2) m = applyRules l2 (applyRules l1 m) :=
  List.foldl_append _ _ _ _

lemma applyRulesVal_append (l1 l2 : RuleList) (k w : String) :
    applyRulesVal (l1 ++ l2) k w = applyRulesVal l2 k (applyRulesVal l1 k w) :=
  List.foldl_append _ _ _ _

lemma applyRules_eq_map (rules : RuleList) (m : FormData) :
    applyRules rules m = m.map (fun q => (q.1, applyRulesVal rules q.1 q.2)) := by
  induction rules generalizing m with
  | nil => simp [applyRules, applyRulesVal]
  | cons cv rules ih =>
    show applyRules rules (applyRule cv.1 cv.2 m) = _
    rw [ih]
    unfold applyRule
    rw [List.map_map]
    apply List.map_congr_left
    intro q _
    by_cases hc : cv.1 q.1 q.2 <;>
      simp [Function.comp, hc, applyRulesVal, List.foldl_cons]

lemma dictHas_applyRules (rules : RuleList) (m : FormData) (k : String) :
    dictHas (applyRules rules m) k = dictHas m k := by
  induction rules generalizing m with
  | nil => rfl
  | cons cv rules ih =>
    show dictHas (applyRules rules (applyRule cv.1 cv.2 m)) k = _
    rw [ih, dictHas_applyRule]

lemma dictGet_applyRules (rules : RuleList) (m : FormData) (k w : String)
    (h : dictGet m k = some w) :
    dictGet (applyRules rules m) k = some (applyRulesVal rules k w) := by
  induction rules generalizing m w with
  | nil => simpa [applyRules, applyRulesVal]
  | cons cv rules ih =>
    show dictGet (applyRules rules (applyRule cv.1 cv.2 m)) k = _
    have h1 : dictGet (applyRule cv.1 cv.2 m) k =
        some (if cv.1 k w then cv.2 else w) := by
      rw [dictGet_applyRule, h]; rfl
    rw [ih _ _ h1]
    rfl

lemma dictGet_append_single (m : FormData) (key v k : String) :
    dictGet (m ++ [(key, v)]) k =
      match dictGet m k with
      | some w => some w
      | none => if k = key then some v else none := by
  induction m with
  | nil =>
    by_cases hk : k = key
    · subst hk; simp [dictGet, List.find?_cons]
    · simp [dictGet, List.find?_cons, Ne.symm hk, hk]
  | cons q m ih =>
    by_cases hq : q.1 = k
    · simp [dictGet, List.find?_cons, hq]
    · simpa [dictGet, List.find?_cons, hq] using ih

lemma dictHas_append_single (m : FormData) (key v k : String) :
    dictHas (m ++ [(key, v)]) k = (dictHas m k || (k == key)) := by
  induction m with
  | nil =>
    by_cases hk : k = key
    · subst hk; simp [dictHas, List.find?_cons]
    · simp [dictHas, List.find?_cons, Ne.symm hk, hk]
  | cons q m ih =>
    by_cases hq : q.1 = k
    · simp [dictHas, List.find?_cons, hq]
    · simpa [dictHas, List.find?_cons, hq] using ih

lemma dictGet_addIfAbsent_of_some (key cv : String) (m : FormData) (k w : String)
    (h : dictGet m k = some w) :
    dictGet (addIfAbsent key cv m) k = some w := by
  unfold addIfAbsent
  split
  · exact h
  · rw [dictGet_append_single, h]

lemma dictHas_addIfAbsent (key cv : String) (m : FormData) (k : String) :
    dictHas (addIfAbsent key cv m) k =
      (dictHas m k || (k == key && !dictHas m key)) := by
  unfold addIfAbsent
  split
  · rename_i h
    rw [h]
    simp
  · rename_i h
    rw [dictHas_append_single]
    simp only [Bool.not_eq_true] at h
    rw [h]
    simp

lemma foldl_addIfAbsent_eq (kvs : List (String × String)) (m : FormData)
    (hnd : kvs.Pairwise (fun a b => a.1 ≠ b.1)) :
    kvs.foldl (fun acc kv => addIfAbsent kv.1 kv.2 acc) m =
      m ++ kvs.filter (fun kv => !dictHas m kv.1) := by
  induction kvs generalizing m with
  | nil => simp
  | cons kv kvs ih =>
    have hnd' := List.Pairwise.sublist (List.sublist_cons_self kv kvs) hnd
    have hne : ∀ b ∈ kvs, kv.1 ≠ b.1 := fun b hb => List.rel_of_pairwise_cons hnd hb
    show kvs.foldl _ (addIfAbsent kv.1 kv.2 m) = _
    rw [ih _ hnd']
    unfold addIfAbsent
    by_cases h : dictHas m kv.1 = true
    · rw [if_pos h]
      simp only [List.filter_cons]
      rw [h]
      simp
    · rw [if_neg (by simp [h])]
      simp only [List.filter_cons]
      have h' : dictHas m kv.1 = false := by simpa using h
      rw [h']
      simp only [Bool.not_false, if_pos]
      have hfilter : kvs.filter (fun b => !dictHas (m ++ [(kv.1, kv.2)]) b.1) =
          kvs.filter (fun b => !dictHas m b.1) := by
        apply List.filter_congr
        intro b hb
        rw [dictHas_append_single]
        have hb1 : (b.1 == kv.1) = false := by
          simp [Ne.symm (hne b hb)]
        rw [hb1]
        simp
      rw [hfilter]
      simp

lemma dictGet_foldl_addIfAbsent_of_some (kvs : List (String × String))
    (m : FormData) (k w : String) (h : dictGet m k = some w) :
    dictGet (kvs.foldl (fun acc kv => addIfAbsent kv.1 kv.2 acc) m) k = some w := by
  induction kvs generalizing m with
  | nil => exact h
  | cons kv kvs ih =>
    exact ih _ (dictGet_addIfAbsent_of_some _ _ _ _ _ h)

lemma applyRulesVal_of_all_false (l : RuleList) (k v : String)
    (h : ∀ cv ∈ l, cv.1 k v = false) : applyRulesVal l k v = v := by
  induction l with
  | nil => rfl
  | cons cv l ih =>
    show applyRulesVal l k (if cv.1 k v then cv.2 else v) = v
    rw [h cv (List.mem_cons_self cv l), if_neg (by simp)]
    exact ih (fun cv' h' => h cv' (List.mem_cons_of_mem cv h'))

lemma applyRulesVal_const (l : RuleList) (k e : String)
    (h : ∀ cv ∈ l, cv.2 = e) : applyRulesVal l k e = e := by
  induction l with
  | nil => rfl
  | cons cv l ih =>
    show applyRulesVal l k (if cv.1 k e then cv.2 else e) = e
    have hcv := h cv (List.mem_cons_self cv l)
    have ih' := ih (fun cv' h' => h cv' (List.mem_cons_of_mem cv h'))
    by_cases hc : cv.1 k e = true
    · rw [if_pos hc, hcv]
      exact ih'
    · rw [if_neg (by simp [hc])]
      exact ih'

lemma applyRulesVal_overwrite (l : RuleList) (k w e : String)
    (hval : ∀ cv ∈ l, cv.2 = e)
    (hvi : ∀ cv ∈ l, ∀ w1 w2, cv.1 k w1 = cv.1 k w2)
    (hex : ∃ cv ∈ l, cv.1 k w = true) :
    applyRulesVal l k w = e := by
  induction l with
  | nil => simp at hex
  | cons cv l ih =>
    show applyRulesVal l k (if cv.1 k w then cv.2 else w) = e
    by_cases hc : cv.1 k w = true
    · rw [if_pos hc, hval cv (List.mem_cons_self cv l)]
      exact applyRulesVal_const l k e
        (fun cv' h' => hval cv' (List.mem_cons_of_mem cv h'))
    · rw [if_neg (by simp [hc])]
      obtain ⟨cv', hcv', hcond⟩ := hex
      rcases List.mem_cons.mp hcv' with rfl | hmem
      · exact absurd hcond hc
      · exact ih (fun c h => hval c (List.mem_cons_of_mem cv h))
          (fun c h => hvi c (List.mem_cons_of_mem cv h))
          ⟨cv', hmem, hcond⟩

lemma applyRulesVal_const_or_id (l : RuleList) (k : String)
    (hvi : ∀ cv ∈ l, ∀ w1 w2, cv.1 k w1 = cv.1 k w2) :
    (∀ w1 w2, applyRulesVal l k w1 = applyRulesVal l k w2) ∨
      (∀ w, applyRulesVal l k w = w) := by
  induction l with
  | nil => exact Or.inr (fun w => rfl)
  | cons cv l ih =>
    have hvi' : ∀ cv' ∈ l, ∀ w1 w2, cv'.1 k w1 = cv'.1 k w2 :=
      fun c h => hvi c (List.mem_cons_of_mem cv h)
    have hhead := hvi cv (List.mem_cons_self cv l)
    cases hc : cv.1 k "" with
    | true =>
      left
      intro w1 w2
      show applyRulesVal l k (if cv.1 k w1 then cv.2 else w1) =
        applyRulesVal l k (if cv.1 k w2 then cv.2 else w2)
      rw [if_pos (by rw [hhead w1 ""]; exact hc),
        if_pos (by rw [hhead w2 ""]; exact hc)]
    | false =>
      have hid : ∀ w, applyRulesVal (cv :: l) k w = applyRulesVal l k w := by
        intro w
        show applyRulesVal l k (if cv.1 k w then cv.2 else w) = _
        rw [if_neg (by rw [hhead w ""]; simp [hc])]
      rcases ih hvi' with hconst | hid'
      · left
        intro w1 w2
        rw [hid w1, hid w2]
        exact hconst w1 w2
      · right
        intro w
        rw [hid w]
        exact hid' w

lemma applyRulesVal_terms_good (l : RuleList) (k x : String)
    (hts : ∀ cv ∈ l, cv.2 = "1" ∧
      ∀ k' w, cv.1 k' w = true → (w == "" || w == "0") = true)
    (hgood : ((x == "" || x == "0") : Bool) = false) :
    applyRulesVal l k x = x := by
  apply applyRulesVal_of_all_false
  intro cv hcv
  cases hc : cv.1 k x with
  | true =>
    have := (hts cv hcv).2 k x hc
    rw [this] at hgood
    cases hgood
  | false => rfl

lemma applyRulesVal_terms_cases (l : RuleList) (k x : String)
    (hts : ∀ cv ∈ l, cv.2 = "1" ∧
      ∀ k' w, cv.1 k' w = true → (w == "" || w == "0") = true) :
    applyRulesVal l k x = x ∨ applyRulesVal l k x = "1" := by
  induction l with
  | nil => exact Or.inl rfl
  | cons cv l ih =>
    have hts' : ∀ c ∈ l, c.2 = "1" ∧
        ∀ k' w, c.1 k' w = true → (w == "" || w == "0") = true :=
      fun c h => hts c (List.mem_cons_of_mem cv h)
    by_cases hc : cv.1 k x = true
    · right
      show applyRulesVal l k (if cv.1 k x then cv.2 else x) = "1"
      rw [if_pos hc, (hts cv (List.mem_cons_self cv l)).1]
      exact applyRulesVal_terms_good l k "1" hts' (by decide)
    · have hstep : applyRulesVal (cv :: l) k x = applyRulesVal l k x := by
        show applyRulesVal l k (if cv.1 k x then cv.2 else x) = _
        rw [if_neg (by simp [hc])]
      rw [hstep]
      exact ih hts'

lemma applyRulesVal_idem (l1 l2 : RuleList) (k : String)
    (hvi : ∀ cv ∈ l1, ∀ w1 w2, cv.1 k w1 = cv.1 k w2)
    (hts : ∀ cv ∈ l2, cv.2 = "1" ∧
      ∀ k' w, cv.1 k' w = true → (w == "" || w == "0") = true) :
    ∀ w, applyRulesVal (l1 ++ l2) k (applyRulesVal (l1 ++ l2) k w) =
      applyRulesVal (l1 ++ l2) k w := by
  intro w
  simp only [applyRulesVal_append]
  rcases applyRulesVal_const_or_id l1 k hvi with hconst | hid
  · rw [hconst (applyRulesVal l2 k (applyRulesVal l1 k w)) w]
  · rw [hid, hid]
    rcases applyRulesVal_terms_cases l2 k w hts with h | h
    · rw [h]
      exact h
    · rw [h]
      exact applyRulesVal_terms_good l2 k "1" hts (by decide)

lemma bdayPairStep_eq (key1 key2 v : String) (m : FormData) :
    bdayPairStep key1 key2 v m =
      applyRule (fun k _ => k == chooseKey m key1 key2) v m := by
  unfold bdayPairStep chooseKey
  split
  · rfl
  · rename_i h
    simp only [Bool.or_eq_true, not_or, Bool.not_eq_true] at h
    rw [h.1]
    simp only [Bool.false_eq_true, if_false]
    exact (applyRule_eq_self_of_not_has key2 v m h.2).symm

lemma chooseKey_applyRule (c : String → String → Bool) (v : String)
    (m : FormData) (k1 k2 : String) :
    chooseKey (applyRule c v m) k1 k2 = chooseKey m k1 k2 := by
  unfold chooseKey
  rw [dictHas_applyRule]

lemma fill_eq (u : UserData) (email : String) (y : Int) (ri : String)
    (m : FormData) :
    fill_registration_form u email y ri m =
      addCommonFields u ri
        (applyRules (fullRules u email y
          (chooseKey m "birthday_day" "birthday[day]")
          (chooseKey m "birthday_month" "birthday[month]")
          (chooseKey m "birthday_year" "birthday[year]")) m) := by
  simp only [fill_registration_form]
  rw [bdayPairStep_eq, bdayPairStep_eq, bdayPairStep_eq,
    chooseKey_applyRule, chooseKey_applyRule, chooseKey_applyRule]
  unfold fullRules keyRules
  rw [applyRules_append, applyRules_append, applyRules_append,
    applyRules_append, applyRules_append, applyRules_append]
  rfl

lemma nameRules_all_false {u : UserData} {k : String} (w : String)
    (h : (name_field_patterns u).all
      (fun pv => !strContains (pyLower k) (pyLower pv.1)) = true) :
    ∀ cv ∈ nameRules u, cv.1 k w = false := by
  intro cv hcv
  obtain ⟨pv, hpv, rfl⟩ := List.mem_map.mp hcv
  have := List.all_eq_true.mp h pv hpv
  simpa using this

lemma emailRules_all_false {email k : String} (w : String)
    (h : email_field_patterns.all (fun pat => !strContains (pyLower k) pat) = true) :
    ∀ cv ∈ emailRules email, cv.1 k w = false := by
  intro cv hcv
  obtain ⟨pat, hpat, rfl⟩ := List.mem_map.mp hcv
  have := List.all_eq_true.mp h pat hpat
  simpa using this

lemma confirmationRules_all_false {email k : String} (w : String)
    (h : email_field_patterns.all (fun pat => !strContains (pyLower k) pat) = true) :
    ∀ cv ∈ confirmationRules email, cv.1 k w = false := by
  intro cv hcv
  obtain ⟨pat, hpat, rfl⟩ := List.mem_map.mp hcv
  have hany : email_field_patterns.any (fun ep => strContains (pyLower k) ep) = false := by
    rw [List.any_eq_false]
    intro ep hep
    have := List.all_eq_true.mp h ep hep
    simpa using this
  simp [hany]

lemma passwordRules_all_false {u : UserData} {k : String} (w : String)
    (h : password_patterns.all (fun pat => !strContains (pyLower k) pat) = true) :
    ∀ cv ∈ passwordRules u, cv.1 k w = false := by
  intro cv hcv
  obtain ⟨pat, hpat, rfl⟩ := List.mem_map.mp hcv
  have := List.all_eq_true.mp h pat hpat
  simpa using this

lemma genderRules_all_false {u : UserData} {k : String} (w : String)
    (h : gender_patterns.all (fun pat => !strContains (pyLower k) pat) = true) :
    ∀ cv ∈ genderRules u, cv.1 k w = false := by
  intro cv hcv
  obtain ⟨pat, hpat, rfl⟩ := List.mem_map.mp hcv
  have := List.all_eq_true.mp h pat hpat
  simpa using this

lemma termsRules_all_false {k : String} (w : String)
    (h : terms_patterns.all (fun pat => !strContains (pyLower k) pat) = true) :
    ∀ cv ∈ termsRules, cv.1 k w = false := by
  intro cv hcv
  obtain ⟨pat, hpat, rfl⟩ := List.mem_map.mp hcv
  have := List.all_eq_true.mp h pat hpat
  simp only [Bool.not_eq_true'] at this
  simp [this]

lemma termsRules_false_of_good {k v : String}
    (hgood : ((v == "" || v == "0") : Bool) = false) :
    ∀ cv ∈ termsRules, cv.1 k v = false := by
  intro cv hcv
  obtain ⟨pat, hpat, rfl⟩ := List.mem_map.mp hcv
  simp [hgood]

lemma bdayKeyRules_all_false {u : UserData} {y : Int} {c1 c2 c3 k : String} (w : String)
    (hc1 : (k == c1) = false) (hc2 : (k == c2) = false) (hc3 : (k == c3) = false)
    (hday : (k == "day") = false) (hmo : (k == "month") = false)
    (hyr : (k == "year") = false) (hbd : (k == "birthday") = false)
    (hba : (k == "birthday_age") = false) :
    ∀ cv ∈ bdayKeyRules u y c1 c2 c3, cv.1 k w = false := by
  intro cv hcv
  unfold bdayKeyRules at hcv
  simp only [List.mem_cons, List.not_mem_nil, or_false] at hcv
  rcases hcv with rfl | rfl | rfl | rfl | rfl | rfl | rfl | rfl <;> assumption

lemma keyRules_all_false {u : UserData} {email : String} {y : Int}
    {c1 c2 c3 k : String} (w : String)
    (hc1 : (k == c1) = false) (hc2 : (k == c2) = false) (hc3 : (k == c3) = false)
    (hday : (k == "day") = false) (hmo : (k == "month") = false)
    (hyr : (k == "year") = false) (hbd : (k == "birthday") = false)
    (hba : (k == "birthday_age") = false)
    (hname : (name_field_patterns u).all
      (fun pv => !strContains (pyLower k) (pyLower pv.1)) = true)
    (hemail : email_field_patterns.all
      (fun pat => !strContains (pyLower k) pat) = true)
    (hpass : password_patterns.all (fun pat => !strContains (pyLower k) pat) = true)
    (hgender : gender_patterns.all (fun pat => !strContains (pyLower k) pat) = true) :
    ∀ cv ∈ keyRules u email y c1 c2 c3, cv.1 k w = false := by
  intro cv hcv
  unfold keyRules at hcv
  rcases List.mem_append.mp hcv with hcv | h
  on_goal 2 => exact genderRules_all_false w hgender cv h
  rcases List.mem_append.mp hcv with hcv | h
  on_goal 2 => exact passwordRules_all_false w hpass cv h
  rcases List.mem_append.mp hcv with hcv | h
  on_goal 2 => exact confirmationRules_all_false w hemail cv h
  rcases List.mem_append.mp hcv with hcv | h
  on_goal 2 => exact emailRules_all_false w hemail cv h
  rcases List.mem_append.mp hcv with h | h
  · exact bdayKeyRules_all_false w hc1 hc2 hc3 hday hmo hyr hbd hba cv h
  · exact nameRules_all_false w hname cv h

lemma keyRules_value_indep (u : UserData) (email : String) (y : Int)
    (c1 c2 c3 k : String) :
    ∀ cv ∈ keyRules u email y c1 c2 c3, ∀ w1 w2, cv.1 k w1 = cv.1 k w2 := by
  intro cv hcv w1 w2
  unfold keyRules at hcv
  rcases List.mem_append.mp hcv with hcv | h
  on_goal 2 => obtain ⟨pat, _, rfl⟩ := List.mem_map.mp h; rfl
  rcases List.mem_append.mp hcv with hcv | h
  on_goal 2 => obtain ⟨pat, _, rfl⟩ := List.mem_map.mp h; rfl
  rcases List.mem_append.mp hcv with hcv | h
  on_goal 2 => obtain ⟨pat, _, rfl⟩ := List.mem_map.mp h; rfl
  rcases List.mem_append.mp hcv with hcv | h
  on_goal 2 => obtain ⟨pat, _, rfl⟩ := List.mem_map.mp h; rfl
  rcases List.mem_append.mp hcv with h | h
  · unfold bdayKeyRules at h
    simp only [List.mem_cons, List.not_mem_nil, or_false] at h
    rcases h with rfl | rfl | rfl | rfl | rfl | rfl | rfl | rfl <;> rfl
  · obtain ⟨pv, _, rfl⟩ := List.mem_map.mp h
    rfl

lemma termsRules_shape :
    ∀ cv ∈ termsRules, cv.2 = "1" ∧
      ∀ k' w, cv.1 k' w = true → ((w == "" || w == "0") : Bool) = true := by
  intro cv hcv
  obtain ⟨pat, _, rfl⟩ := List.mem_map.mp hcv
  refine ⟨rfl, ?_⟩
  intro k' w h
  exact (Bool.and_eq_true_iff.mp h).2

lemma beq_false_of_pred (p : String → Bool) (k K : String)
    (h : p k = true) (hK : p K = false) : (k == K) = false := by
  by_cases hkK : k = K
  · subst hkK
    rw [h] at hK
    cases hK
  · simp [hkK]

lemma chooseKey_cases (m : FormData) (k1 k2 : String) :
    chooseKey m k1 k2 = k1 ∨ chooseKey m k1 k2 = k2 := by
  unfold chooseKey
  split
  · exact Or.inl rfl
  · exact Or.inr rfl

lemma beq_chooseKey_false (p : String → Bool) (k : String) (m : FormData)
    (k1 k2 : String) (h : p k = true) (h1 : p k1 = false) (h2 : p k2 = false) :
    (k == chooseKey m k1 k2) = false := by
  rcases chooseKey_cases m k1 k2 with hc | hc <;> rw [hc]
  · exact beq_false_of_pred p k k1 h h1
  · exact beq_false_of_pred p k k2 h h2

lemma dictHas_append (m1 m2 : FormData) (k : String) :
    dictHas (m1 ++ m2) k = (dictHas m1 k || dictHas m2 k) := by
  induction m1 with
  | nil => simp [dictHas]
  | cons q m1 ih =>
    by_cases hq : q.1 = k
    · simp [dictHas, List.find?_cons, hq]
    · simp only [List.cons_append, dictHas, List.find?_cons] at ih ⊢
      simp [hq, ih]

lemma dictHas_of_mem (kv : String × String) (m : FormData) (h : kv ∈ m) :
    dictHas m kv.1 = true := by
  unfold dictHas
  rw [List.find?_isSome]
  exact ⟨kv, h, by simp⟩

lemma dictHas_foldl_addIfAbsent_of_ne (kvs : List (String × String))
    (m : FormData) (k : String) (hk : ∀ kv ∈ kvs, (k == kv.1) = false) :
    dictHas (kvs.foldl (fun acc kv => addIfAbsent kv.1 kv.2 acc) m) k =
      dictHas m k := by
  induction kvs generalizing m with
  | nil => rfl
  | cons kv kvs ih =>
    show dictHas (kvs.foldl _ (addIfAbsent kv.1 kv.2 m)) k = _
    rw [ih _ (fun c h => hk c (List.mem_cons_of_mem kv h)),
      dictHas_addIfAbsent, hk kv (List.mem_cons_self kv kvs)]
    simp

lemma commonFields_key_mem (u : UserData) (ri : String)
    (kv : String × String) (h : kv ∈ commonFields u ri) :
    kv.1 ∈ ["websubmit", "referrer", "locale", "reg_instance",
      "contactpoint_type", "submission_request", "is_birthday_verified",
      "device_id"] := by
  fin_cases h <;> simp

lemma commonFields_pairwise (u : UserData) (ri : String) :
    (commonFields u ri).Pairwise (fun a b => a.1 ≠ b.1) := by
  unfold commonFields
  simp [List.pairwise_cons]

lemma applyRulesVal_fullRules_id (u : UserData) (email : String) (y : Int)
    (c1 c2 c3 k w : String)
    (hc1 : (k == c1) = false) (hc2 : (k == c2) = false) (hc3 : (k == c3) = false)
    (hday : (k == "day") = false) (hmo : (k == "month") = false)
    (hyr : (k == "year") = false) (hbd : (k == "birthday") = false)
    (hba : (k == "birthday_age") = false)
    (hname : (name_field_patterns u).all
      (fun pv => !strContains (pyLower k) (pyLower pv.1)) = true)
    (hemail : email_field_patterns.all
      (fun pat => !strContains (pyLower k) pat) = true)
    (hpass : password_patterns.all (fun pat => !strContains (pyLower k) pat) = true)
    (hgender : gender_patterns.all (fun pat => !strContains (pyLower k) pat) = true)
    (hterms : terms_patterns.all (fun pat => !strContains (pyLower k) pat) = true) :
    applyRulesVal (fullRules u email y c1 c2 c3) k w = w := by
  unfold fullRules
  rw [applyRulesVal_append,
    applyRulesVal_of_all_false _ _ _
      (keyRules_all_false w hc1 hc2 hc3 hday hmo hyr hbd hba hname hemail hpass hgender)]
  exact applyRulesVal_of_all_false _ _ _ (termsRules_all_false w hterms)

lemma commonEntry_fixed (u : UserData) (email ri : String) (y : Int)
    (c1 c2 c3 : String)
    (hc1 : c1 = "birthday_day" ∨ c1 = "birthday[day]")
    (hc2 : c2 = "birthday_month" ∨ c2 = "birthday[month]")
    (hc3 : c3 = "birthday_year" ∨ c3 = "birthday[year]")
    (kv : String × String) (hkv : kv ∈ commonFields u ri)
    (hne : kv.1 ≠ "contactpoint_type") :
    applyRulesVal (fullRules u email y c1 c2 c3) kv.1 kv.2 = kv.2 := by
  fin_cases hkv <;>
    first
      | exact absurd rfl hne
      | exact applyRulesVal_fullRules_id u email y c1 c2 c3 _ _
          (by rcases hc1 with rfl | rfl <;> rfl)
          (by rcases hc2 with rfl | rfl <;> rfl)
          (by rcases hc3 with rfl | rfl <;> rfl)
          rfl rfl rfl rfl rfl rfl rfl rfl rfl rfl

lemma fill_idem (u : UserData) (email : String) (y : Int) (ri : String)
    (m : FormData) (hcp : dictHas m "contactpoint_type" = true) :
    fill_registration_form u email y ri (fill_registration_form u email y ri m) =
      fill_registration_form u email y ri m := by
  have hpres : ∀ kk ∈ (["birthday_day", "birthday[day]", "birthday_month",
      "birthday[month]", "birthday_year", "birthday[year]"] : List String),
      dictHas (fill_registration_form u email y ri m) kk = dictHas m kk := by
    intro kk hkk
    rw [fill_eq]
    unfold addCommonFields
    rw [dictHas_foldl_addIfAbsent_of_ne]
    · exact dictHas_applyRules _ _ _
    · intro kv hkv
      have hmem := commonFields_key_mem u ri kv hkv
      simp only [List.mem_cons, List.not_mem_nil, or_false] at hmem
      fin_cases hkk <;>
        (rcases hmem with h | h | h | h | h | h | h | h <;> rw [h] <;> rfl)
  have hch1 : chooseKey (fill_registration_form u email y ri m)
      "birthday_day" "birthday[day]" = chooseKey m "birthday_day" "birthday[day]" := by
    unfold chooseKey
    rw [hpres "birthday_day" (by simp)]
  have hch2 : chooseKey (fill_registration_form u email y ri m)
      "birthday_month" "birthday[month]" =
      chooseKey m "birthday_month" "birthday[month]" := by
    unfold chooseKey
    rw [hpres "birthday_month" (by simp)]
  have hch3 : chooseKey (fill_registration_form u email y ri m)
      "birthday_year" "birthday[year]" =
      chooseKey m "birthday_year" "birthday[year]" := by
    unfold chooseKey
    rw [hpres "birthday_year" (by simp)]
  conv_lhs => rw [fill_eq, hch1, hch2, hch3]
  rw [fill_eq u email y ri m]
  set c1 := chooseKey m "birthday_day" "birthday[day]" with hc1def
  set c2 := chooseKey m "birthday_month" "birthday[month]" with hc2def
  set c3 := chooseKey m "birthday_year" "birthday[year]" with hc3def
  have hcand1 : c1 = "birthday_day" ∨ c1 = "birthday[day]" :=
    chooseKey_cases m _ _
  have hcand2 : c2 = "birthday_month" ∨ c2 = "birthday[month]" :=
    chooseKey_cases m _ _
  have hcand3 : c3 = "birthday_year" ∨ c3 = "birthday[year]" :=
    chooseKey_cases m _ _
  set R := fullRules u email y c1 c2 c3 with hRdef
  set M := applyRules R m with hMdef
  have hMcp : dictHas M "contactpoint_type" = true := by
    rw [hMdef, dictHas_applyRules]
    exact hcp
  have hAC : addCommonFields u ri M =
      M ++ (commonFields u ri).filter (fun kv => !dictHas M kv.1) := by
    unfold addCommonFields
    exact foldl_addIfAbsent_eq _ _ (commonFields_pairwise u ri)
  set D := (commonFields u ri).filter (fun kv => !dictHas M kv.1) with hDdef
  have hDprops : ∀ kv ∈ D, kv ∈ commonFields u ri ∧ kv.1 ≠ "contactpoint_type" := by
    intro kv hkv
    have h1 := List.mem_filter.mp hkv
    refine ⟨h1.1, ?_⟩
    intro heq
    have h2 := h1.2
    rw [heq, hMcp] at h2
    cases h2
  have hmapD : D.map (fun q => (q.1, applyRulesVal R q.1 q.2)) = D := by
    conv_rhs => rw [← List.map_id D]
    apply List.map_congr_left
    intro kv hkv
    obtain ⟨hmem, hne⟩ := hDprops kv hkv
    rw [commonEntry_fixed u email ri y c1 c2 c3 hcand1 hcand2 hcand3 kv hmem hne]
    rfl
  have hmapM : M.map (fun q => (q.1, applyRulesVal R q.1 q.2)) = M := by
    rw [hMdef, applyRules_eq_map, List.map_map]
    apply List.map_congr_left
    intro q _
    show (q.1, applyRulesVal R q.1 (applyRulesVal R q.1 q.2)) =
      (q.1, applyRulesVal R q.1 q.2)
    have hidem := applyRulesVal_idem (keyRules u email y c1 c2 c3) termsRules q.1
      (keyRules_value_indep u email y c1 c2 c3 q.1) termsRules_shape q.2
    exact congrArg (Prod.mk q.1) hidem
  have hfilter_nil : (commonFields u ri).filter
      (fun kv => !dictHas (M ++ D) kv.1) = [] := by
    apply List.filter_eq_nil_iff.mpr
    intro kv hkv
    have hhas : dictHas (M ++ D) kv.1 = true := by
      rw [dictHas_append]
      by_cases hm : dictHas M kv.1 = true
      · rw [hm]
        simp
      · have hmf : dictHas M kv.1 = false := by simpa using hm
        have hkvD : kv ∈ D := by
          rw [hDdef]
          exact List.mem_filter.mpr ⟨hkv, by rw [hmf]; rfl⟩
        rw [dictHas_of_mem kv D hkvD]
        simp
    simp [hhas]
  calc addCommonFields u ri (applyRules R (addCommonFields u ri M))
      = addCommonFields u ri (applyRules R (M ++ D)) := by rw [hAC]
    _ = addCommonFields u ri ((M ++ D).map
          (fun q => (q.1, applyRulesVal R q.1 q.2))) := by rw [applyRules_eq_map]
    _ = addCommonFields u ri (M ++ D) := by rw [List.map_append, hmapM, hmapD]
    _ = (M ++ D) ++ (commonFields u ri).filter
          (fun kv => !dictHas (M ++ D) kv.1) := by
        unfold addCommonFields
        exact foldl_addIfAbsent_eq _ _ (commonFields_pairwise u ri)
    _ = (M ++ D) ++ [] := by rw [hfilter_nil]
    _ = M ++ D := List.append_nil _
    _ = addCommonFields u ri M := hAC.symm

lemma extractFacebookTokens_of_truthy {st : TokenState} (r : TokenResponse)
    (h1 : pyTruthy st.fb_dtsg = true) (h2 : pyTruthy st.lsd = true)
    (hd : r.dtsgMatch = none) (hl : r.lsdMatch = none) :
    extractFacebookTokens st r = st := by
  unfold extractFacebookTokens
  cases hh : r.isHtml
  · rfl
  · simp only [hd, hl]
    cases r.dtsgAltMatch <;> cases r.lsdAltMatch <;>
      simp [h1, h2, foldl_applyScriptTokens_of_truthy]

lemma applyScriptTokens_fb_dtsg (st : TokenState) (s : ScriptMatches)
    (h1 : pyTruthy st.fb_dtsg = true) :
    (applyScriptTokens st s).fb_dtsg = st.fb_dtsg := by
  unfold applyScriptTokens
  simp only [h1, Bool.not_true, Bool.false_eq_true, if_false]
  split
  · cases s.lsdJs <;> rfl
  · rfl

lemma applyScriptTokens_lsd (st : TokenState) (s : ScriptMatches)
    (h2 : pyTruthy st.lsd = true) :
    (applyScriptTokens st s).lsd = st.lsd := by
  unfold applyScriptTokens
  cases hb : (!pyTruthy st.fb_dtsg) <;> cases s.fbDtsgJs <;> simp [hb, h2]

lemma foldl_applyScriptTokens_fb_dtsg (ss : List ScriptMatches) :
    ∀ st : TokenState, pyTruthy st.fb_dtsg = true →
      (ss.foldl applyScriptTokens st).fb_dtsg = st.fb_dtsg := by
  induction ss with
  | nil => intro st _; rfl
  | cons s ss ih =>
    intro st h1
    rw [List.foldl_cons]
    have he := applyScriptTokens_fb_dtsg st s h1
    rw [ih _ (by rw [he]; exact h1), he]

lemma foldl_applyScriptTokens_lsd (ss : List ScriptMatches) :
    ∀ st : TokenState, pyTruthy st.lsd = true →
      (ss.foldl applyScriptTokens st).lsd = st.lsd := by
  induction ss with
  | nil => intro st _; rfl
  | cons s ss ih =>
    intro st h2
    rw [List.foldl_cons]
    have he := applyScriptTokens_lsd st s h2
    rw [ih _ (by rw [he]; exact h2), he]

lemma extractFacebookTokens_fb_dtsg (st : TokenState) (r : TokenResponse)
    (h1 : pyTruthy st.fb_dtsg = true) (hd : r.dtsgMatch = none) :
    (extractFacebookTokens st r).fb_dtsg = st.fb_dtsg := by
  unfold extractFacebookTokens
  cases hh : r.isHtml
  · rfl
  · simp only [hd, if_true]
    have hpres : ∀ st2 : TokenState, st2.fb_dtsg = st.fb_dtsg →
        (r.scripts.foldl applyScriptTokens st2).fb_dtsg = st.fb_dtsg := by
      intro st2 h
      rw [foldl_applyScriptTokens_fb_dtsg _ _ (by rw [h]; exact h1), h]
    cases hA : r.dtsgAltMatch <;> cases hL : r.lsdMatch <;> cases hLA : r.lsdAltMatch <;>
      · apply hpres
        (try split) <;> (try split) <;> (try split) <;>
          first | rfl | contradiction | simp_all

lemma extractFacebookTokens_lsd (st : TokenState) (r : TokenResponse)
    (h2 : pyTruthy st.lsd = true) (hl : r.lsdMatch = none) :
    (extractFacebookTokens st r).lsd = st.lsd := by
  unfold extractFacebookTokens
  cases hh : r.isHtml
  · rfl
  · simp only [hl, if_true]
    have hpres : ∀ st2 : TokenState, st2.lsd = st.lsd →
        (r.scripts.foldl applyScriptTokens st2).lsd = st.lsd := by
      intro st2 h
      rw [foldl_applyScriptTokens_lsd _ _ (by rw [h]; exact h2), h]
    cases hA : r.dtsgAltMatch <;> cases hLA : r.lsdAltMatch <;> cases hD : r.dtsgMatch <;>
      · apply hpres
        (try split) <;> (try split) <;> (try split) <;>
          first | rfl | contradiction | simp_all

lemma extractFacebookTokens_dtsg_primary (st : TokenState) (r : TokenResponse) (u : String)
    (hh : r.isHtml = true) (hd : r.dtsgMatch = some u) (hu : u ≠ "") :
    (extractFacebookTokens st r).fb_dtsg = some u := by
  unfold extractFacebookTokens
  simp only [hh, hd, if_true]
  have ht : pyTruthy (some u) = true := by simp [pyTruthy, hu]
  have hpres : ∀ st2 : TokenState, st2.fb_dtsg = some u →
      (r.scripts.foldl applyScriptTokens st2).fb_dtsg = some u := by
    intro st2 h
    rw [foldl_applyScriptTokens_fb_dtsg _ _ (by rw [h]; exact ht), h]
  cases hA : r.dtsgAltMatch <;> cases hL : r.lsdMatch <;> cases hLA : r.lsdAltMatch <;>
    · apply hpres
      (try split) <;> (try split) <;> (try split) <;>
        first | rfl | contradiction | simp_all

lemma extractFacebookTokens_lsd_primary (st : TokenState) (r : TokenResponse) (u : String)
    (hh : r.isHtml = true) (hl : r.lsdMatch = some u) (hu : u ≠ "") :
    (extractFacebookTokens st r).lsd = some u := by
  unfold extractFacebookTokens
  simp only [hh, hl, if_true]
  have ht : pyTruthy (some u) = true := by simp [pyTruthy, hu]
  have hpres : ∀ st2 : TokenState, st2.lsd = some u →
      (r.scripts.foldl applyScriptTokens st2).lsd = some u := by
    intro st2 h
    rw [foldl_applyScriptTokens_lsd _ _ (by rw [h]; exact ht), h]
  cases hA : r.dtsgAltMatch <;> cases hLA : r.lsdAltMatch <;> cases hD : r.dtsgMatch <;>
    · apply hpres
      (try split) <;> (try split) <;> (try split) <;>
        first | rfl | contradiction | simp_all

end FBSpec

/-- C9: for every requested length `L ≥ 4` and all random draws,
`generate_strong_password L` returns a string of length exactly `L`
containing at least one lowercase letter, one uppercase letter, one digit
and one symbol. -/
theorem C9_password_policy (L : Nat) (hL : 4 ≤ L)
    (c1 c2 c3 c4 : Nat) (fill : Nat → Nat) (sh : List Char → List Char)
    (hsh : ∀ l, (sh l).Perm l) :
    (FBSpec.generate_strong_password L c1 c2 c3 c4 fill sh).length = L ∧
    (∃ c ∈ (FBSpec.generate_strong_password L c1 c2 c3 c4 fill sh).toList,
        c ∈ FBSpec.pwLowercase.toList) ∧
    (∃ c ∈ (FBSpec.generate_strong_password L c1 c2 c3 c4 fill sh).toList,
        c ∈ FBSpec.pwUppercase.toList) ∧
    (∃ c ∈ (FBSpec.generate_strong_password L c1 c2 c3 c4 fill sh).toList,
        c ∈ FBSpec.pwDigits.toList) ∧
    (∃ c ∈ (FBSpec.generate_strong_password L c1 c2 c3 c4 fill sh).toList,
        c ∈ FBSpec.pwSpecial.toList) := by
  unfold FBSpec.generate_strong_password
  set seeded : List Char :=
    [FBSpec.pyChoiceChar FBSpec.pwLowercase c1, FBSpec.pyChoiceChar FBSpec.pwUppercase c2,
     FBSpec.pyChoiceChar FBSpec.pwDigits c3, FBSpec.pyChoiceChar FBSpec.pwSpecial c4]
    with hseeded
  set rest : List Char :=
    (List.range (L - 4)).map
      (fun i => FBSpec.pyChoiceChar
        (FBSpec.pwLowercase ++ FBSpec.pwUppercase ++ FBSpec.pwDigits ++ FBSpec.pwSpecial)
        (fill i))
    with hrest
  have hperm := hsh (seeded ++ rest)
  have hmem : ∀ c ∈ seeded, c ∈ sh (seeded ++ rest) := by
    intro c hc
    exact hperm.mem_iff.mpr (List.mem_append_left _ hc)
  constructor
  · show (String.mk (sh (seeded ++ rest))).length = L
    have hl : (sh (seeded ++ rest)).length = (seeded ++ rest).length := hperm.length_eq
    have hr : rest.length = L - 4 := by simp [hrest]
    have hsd : seeded.length = 4 := by rw [hseeded]; rfl
    simp only [String.length, String.toList, String.mk, hl, List.length_append, hr, hsd]
    omega
  refine ⟨?_, ?_, ?_, ?_⟩ <;> simp only [String.toList, String.mk]
  · exact ⟨FBSpec.pyChoiceChar FBSpec.pwLowercase c1, hmem _ (by rw [hseeded]; simp),
      FBSpec.pyChoiceChar_mem _ (by decide) c1⟩
  · exact ⟨FBSpec.pyChoiceChar FBSpec.pwUppercase c2, hmem _ (by rw [hseeded]; simp),
      FBSpec.pyChoiceChar_mem _ (by decide) c2⟩
  · exact ⟨FBSpec.pyChoiceChar FBSpec.pwDigits c3, hmem _ (by rw [hseeded]; simp),
      FBSpec.pyChoiceChar_mem _ (by decide) c3⟩
  · exact ⟨FBSpec.pyChoiceChar FBSpec.pwSpecial c4, hmem _ (by rw [hseeded]; simp),
      FBSpec.pyChoiceChar_mem _ (by decide) c4⟩

/-- C10: every identity produced by `generate_user_data` satisfies
`min_age ≤ current_year − birth_year ≤ max_age` and
`1 ≤ birth_day ≤ days_in_month(birth_month, birth_year)`, and
`days_in_month` gives February 29 days exactly in Gregorian leap years
(divisible by 4, with the 100/400 exception).  The hypotheses
`minAge ≤ maxAge` and `maxAge ≤ currentYear` reflect that
`random.randint(a, b)` requires `a ≤ b`, which holds for the shipped
configuration (19 ≤ 42 ≤ current year). -/
theorem C10_birthdate_bounds (currentYear minAge maxAge : Nat)
    (hmm : minAge ≤ maxAge) (hmc : maxAge ≤ currentYear) (r1 r2 r3 : Nat) :
    (minAge ≤ currentYear - (FBSpec.generate_user_data currentYear minAge maxAge r1 r2 r3).birth_year ∧
     currentYear - (FBSpec.generate_user_data currentYear minAge maxAge r1 r2 r3).birth_year ≤ maxAge ∧
     1 ≤ (FBSpec.generate_user_data currentYear minAge maxAge r1 r2 r3).birth_day ∧
     (FBSpec.generate_user_data currentYear minAge maxAge r1 r2 r3).birth_day ≤
       FBSpec.days_in_month
         (FBSpec.generate_user_data currentYear minAge maxAge r1 r2 r3).birth_month
         (FBSpec.generate_user_data currentYear minAge maxAge r1 r2 r3).birth_year) ∧
    (∀ y, FBSpec.days_in_month 2 y = if FBSpec.gregorianLeap y then 29 else 28) := by
  constructor
  · unfold FBSpec.generate_user_data
    simp only
    have hy := FBSpec.pyRandint_mem
      (a := currentYear - maxAge) (b := currentYear - minAge) (by omega) r1
    have hd := FBSpec.pyRandint_mem (a := 1)
      (b := FBSpec.days_in_month (FBSpec.pyRandint 1 12 r2)
              (FBSpec.pyRandint (currentYear - maxAge) (currentYear - minAge) r1))
      (FBSpec.days_in_month_pos _ _) r3
    refine ⟨by omega, by omega, hd.1, hd.2⟩
  · intro y
    have hiff : FBSpec.gregorianLeap y = true ↔
        (y % 4 = 0 ∧ (y % 100 ≠ 0 ∨ y % 400 = 0)) := by
      unfold FBSpec.gregorianLeap
      simp [Bool.and_eq_true, Bool.or_eq_true, decide_eq_true_eq]
    unfold FBSpec.days_in_month
    rw [if_neg (by decide), if_pos rfl]
    by_cases h : y % 4 = 0 ∧ (y % 100 ≠ 0 ∨ y % 400 = 0)
    · rw [if_pos h, if_pos (hiff.mpr h)]
    · rw [if_neg h, if_neg (fun hb => h (hiff.mp hb))]

/-- Witness for C10 with the shipped configuration (min 19, max 42) in 2025. -/
theorem C10_birthdate_bounds_witness :
    (19 ≤ 2025 - (FBSpec.generate_user_data 2025 19 42 5 6 7).birth_year ∧
     2025 - (FBSpec.generate_user_data 2025 19 42 5 6 7).birth_year ≤ 42 ∧
     1 ≤ (FBSpec.generate_user_data 2025 19 42 5 6 7).birth_day ∧
     (FBSpec.generate_user_data 2025 19 42 5 6 7).birth_day ≤
       FBSpec.days_in_month (FBSpec.generate_user_data 2025 19 42 5 6 7).birth_month
         (FBSpec.generate_user_data 2025 19 42 5 6 7).birth_year) ∧
    (∀ y, FBSpec.days_in_month 2 y = if FBSpec.gregorianLeap y then 29 else 28) :=
  C10_birthdate_bounds 2025 19 42 (by decide) (by decide) 5 6 7

/-- Witness for C9 at `L = 12` with concrete oracles and identity shuffle. -/
theorem C9_password_policy_witness :
    (FBSpec.generate_strong_password 12 0 0 0 0 (fun _ => 0) id).length = 12 ∧
    (∃ c ∈ (FBSpec.generate_strong_password 12 0 0 0 0 (fun _ => 0) id).toList,
        c ∈ FBSpec.pwLowercase.toList) ∧
    (∃ c ∈ (FBSpec.generate_strong_password 12 0 0 0 0 (fun _ => 0) id).toList,
        c ∈ FBSpec.pwUppercase.toList) ∧
    (∃ c ∈ (FBSpec.generate_strong_password 12 0 0 0 0 (fun _ => 0) id).toList,
        c ∈ FBSpec.pwDigits.toList) ∧
    (∃ c ∈ (FBSpec.generate_strong_password 12 0 0 0 0 (fun _ => 0) id).toList,
        c ∈ FBSpec.pwSpecial.toList) :=
  C9_password_policy 12 (by decide) 0 0 0 0 (fun _ => 0) id (fun l => List.Perm.refl l)

/-- C1 counterexample: the claim says an already-captured `fb_dtsg` (resp.
`lsd`) token is never changed by a later response.  In the source, the
primary `"fb_dtsg":"…"` and `name="lsd" value="…"` assignments carry no
`not self.fb_dtsg` / `not self.lsd` guard, so a later HTML response in
which those patterns match overwrites both already-set tokens. -/
theorem C1_counterexample :
    FBSpec.extractFacebookTokens ⟨some "OLDDTSG", some "OLDLSD"⟩
      ⟨true, some "NEWDTSG", none, some "NEWLSD", none, []⟩ =
      ⟨some "NEWDTSG", some "NEWLSD"⟩ ∧
    ("NEWDTSG" ≠ "OLDDTSG" ∧ "NEWLSD" ≠ "OLDLSD") := by
  exact ⟨rfl, by decide, by decide⟩

/-- C1 amended, per token: once `fb_dtsg` (resp. `lsd`) is captured with a
nonempty value (as every regex capture is), processing any later sequence
of responses in which that token's own primary pattern (`"fb_dtsg":"…"`
for `fb_dtsg`, `name="lsd" value="…"` for `lsd`) does not match leaves
that token unchanged — regardless of what the other token's patterns, the
alternate patterns and the script-block patterns match; and whenever a
token's primary pattern does match (with a nonempty capture) in an HTML
response, the token afterwards holds exactly that capture: a missing
token is supplied, a set one is overwritten unconditionally. -/
theorem C1_amended (st : FBSpec.TokenState) (v w u : String)
    (rs : List FBSpec.TokenResponse) (r : FBSpec.TokenResponse) :
    (st.fb_dtsg = some v → v ≠ "" → (∀ x ∈ rs, x.dtsgMatch = none) →
      (rs.foldl FBSpec.extractFacebookTokens st).fb_dtsg = some v) ∧
    (st.lsd = some w → w ≠ "" → (∀ x ∈ rs, x.lsdMatch = none) →
      (rs.foldl FBSpec.extractFacebookTokens st).lsd = some w) ∧
    (r.isHtml = true → r.dtsgMatch = some u → u ≠ "" →
      (FBSpec.extractFacebookTokens st r).fb_dtsg = some u) ∧
    (r.isHtml = true → r.lsdMatch = some u → u ≠ "" →
      (FBSpec.extractFacebookTokens st r).lsd = some u) := by
  refine ⟨?_, ?_, FBSpec.extractFacebookTokens_dtsg_primary st r u,
    FBSpec.extractFacebookTokens_lsd_primary st r u⟩
  · intro hv hvne hprim
    induction rs generalizing st with
    | nil => exact hv
    | cons x xs ih =>
      rw [List.foldl_cons]
      exact ih _
        (by
          rw [FBSpec.extractFacebookTokens_fb_dtsg st x
            (by rw [hv]; simp [FBSpec.pyTruthy, hvne])
            (hprim x (List.mem_cons_self x xs))]
          exact hv)
        (fun y hy => hprim y (List.mem_cons_of_mem x hy))
  · intro hw hwne hprim
    induction rs generalizing st with
    | nil => exact hw
    | cons x xs ih =>
      rw [List.foldl_cons]
      exact ih _
        (by
          rw [FBSpec.extractFacebookTokens_lsd st x
            (by rw [hw]; simp [FBSpec.pyTruthy, hwne])
            (hprim x (List.mem_cons_self x xs))]
          exact hw)
        (fun y hy => hprim y (List.mem_cons_of_mem x hy))

/-- Witness for C1 amended: a session with `fb_dtsg` set and `lsd` missing
processes a response in which only the lsd primary pattern matches (the
alternate and script patterns all match too): `fb_dtsg` is preserved and
the missing `lsd` is supplied; symmetrically a session with `lsd` set and
`fb_dtsg` missing keeps `lsd` and gains `fb_dtsg` from a dtsg-primary-only
response. -/
theorem C1_amended_witness :
    (([⟨true, none, some "ALT", some "NEWLSD", some "ALT2", [⟨some "J1", some "J2"⟩]⟩] :
        List FBSpec.TokenResponse).foldl FBSpec.extractFacebookTokens
        ⟨some "TOK1", none⟩).fb_dtsg = some "TOK1" ∧
    (FBSpec.extractFacebookTokens ⟨some "TOK1", none⟩
        ⟨true, none, some "ALT", some "NEWLSD", some "ALT2", [⟨some "J1", some "J2"⟩]⟩).lsd =
      some "NEWLSD" ∧
    (([⟨true, some "NEWDTSG", some "ALT", none, some "ALT2", [⟨some "J1", some "J2"⟩]⟩] :
        List FBSpec.TokenResponse).foldl FBSpec.extractFacebookTokens
        ⟨none, some "TOK2"⟩).lsd = some "TOK2" ∧
    (FBSpec.extractFacebookTokens ⟨none, some "TOK2"⟩
        ⟨true, some "NEWDTSG", some "ALT", none, some "ALT2", [⟨some "J1", some "J2"⟩]⟩).fb_dtsg =
      some "NEWDTSG" := by
  refine ⟨?_, ?_, ?_, ?_⟩
  · exact (C1_amended ⟨some "TOK1", none⟩ "TOK1" "" "NEWLSD"
      [⟨true, none, some "ALT", some "NEWLSD", some "ALT2", [⟨some "J1", some "J2"⟩]⟩]
      ⟨true, none, some "ALT", some "NEWLSD", some "ALT2", [⟨some "J1", some "J2"⟩]⟩).1
      rfl (by decide) (by decide)
  · exact (C1_amended ⟨some "TOK1", none⟩ "TOK1" "" "NEWLSD"
      [⟨true, none, some "ALT", some "NEWLSD", some "ALT2", [⟨some "J1", some "J2"⟩]⟩]
      ⟨true, none, some "ALT", some "NEWLSD", some "ALT2", [⟨some "J1", some "J2"⟩]⟩).2.2.2
      rfl rfl (by decide)
  · exact (C1_amended ⟨none, some "TOK2"⟩ "" "TOK2" "NEWDTSG"
      [⟨true, some "NEWDTSG", some "ALT", none, some "ALT2", [⟨some "J1", some "J2"⟩]⟩]
      ⟨true, some "NEWDTSG", some "ALT", none, some "ALT2", [⟨some "J1", some "J2"⟩]⟩).2.1
      rfl (by decide) (by decide)
  · exact (C1_amended ⟨none, some "TOK2"⟩ "" "TOK2" "NEWDTSG"
      [⟨true, some "NEWDTSG", some "ALT", none, some "ALT2", [⟨some "J1", some "J2"⟩]⟩]
      ⟨true, some "NEWDTSG", some "ALT", none, some "ALT2", [⟨some "J1", some "J2"⟩]⟩).2.2.1
      rfl rfl (by decide)

/-- C8: for every redirect response whose `location` header starts with
`fbredirect://` and carries a `uri` query parameter, the redirect hook
issues exactly one GET — of the URL-decoded embedded target, with
`allow_redirects=False` — and that single fetch's response replaces the
original response. -/
theorem C8_fbredirect_single_fetch (fetch : FBSpec.FetchRequest → FBSpec.HttpResponse)
    (resp : FBSpec.HttpResponse) (loc enc : String)
    (hred : resp.isRedirect = true)
    (hloc : FBSpec.headerGet resp.headers "location" = some loc)
    (hfb : FBSpec.pyStartsWith loc "fbredirect://" = true)
    (huri : FBSpec.qsGetFirst (FBSpec.queryOf loc) "uri" = some enc) :
    FBSpec.handleFbRedirects fetch resp =
      (fetch ⟨FBSpec.pyUnquote enc, false⟩, [⟨FBSpec.pyUnquote enc, false⟩]) := by
  unfold FBSpec.handleFbRedirects
  rw [if_pos (by rw [hred, hloc]; exact ⟨rfl, rfl⟩)]
  simp only [hloc, Option.getD_some]
  rw [if_pos hfb, huri]

/-- Witness for C8: a concrete redirect to
`fbredirect://app?foo=1&uri=https%3A%2F%2Fm.facebook.com%2Freg%2F` causes a
single non-redirecting GET of `https://m.facebook.com/reg/`. -/
theorem C8_fbredirect_single_fetch_witness :
    FBSpec.handleFbRedirects (fun r => ⟨r.url, false, []⟩)
      ⟨"https://m.facebook.com/x", true,
       [("Location", "fbredirect://app?foo=1&uri=https%3A%2F%2Fm.facebook.com%2Freg%2F")]⟩ =
      (⟨"https://m.facebook.com/reg/", false, []⟩,
       [⟨"https://m.facebook.com/reg/", false⟩]) := by
  have h := C8_fbredirect_single_fetch (fun r => ⟨r.url, false, []⟩)
    ⟨"https://m.facebook.com/x", true,
     [("Location", "fbredirect://app?foo=1&uri=https%3A%2F%2Fm.facebook.com%2Freg%2F")]⟩
    "fbredirect://app?foo=1&uri=https%3A%2F%2Fm.facebook.com%2Freg%2F"
    "https://m.facebook.com/reg/"
    rfl rfl rfl rfl
  rw [h]
  rfl

/-- C4 counterexample: the claim says the user id is always a digit
substring mined from the fabricated `fr`/`presence` cookies.  The
inference loop checks `i_user` before `presence`, so a jar satisfying the
claim's hypotheses (no `xs`, all-digit fabricated `presence`) but also
carrying an all-digit `i_user` cookie finalizes with the `i_user` value,
which comes from neither fabricated cookie (there is no `fr` cookie and
`42` is not the `presence` value). -/
theorem C4_counterexample :
    FBSpec.finalizeAccount none
      [("locale", "en_US"), ("presence", "1234567"), ("i_user", "42"), ("datr", "xyz")] =
      .success "42" ∧
    FBSpec.dictGet
      [("locale", "en_US"), ("presence", "1234567"), ("i_user", "42"), ("datr", "xyz")]
      "xs" = none ∧
    FBSpec.dictGet
      [("locale", "en_US"), ("presence", "1234567"), ("i_user", "42"), ("datr", "xyz")]
      "c_user" = none ∧
    FBSpec.dictGet
      [("locale", "en_US"), ("presence", "1234567"), ("i_user", "42"), ("datr", "xyz")]
      "presence" = some "1234567" ∧
    FBSpec.pyIsDigit "1234567" = true ∧
    FBSpec.dictGet
      [("locale", "en_US"), ("presence", "1234567"), ("i_user", "42"), ("datr", "xyz")]
      "fr" = none ∧
    ("42" : String) ≠ "1234567" := by
  refine ⟨rfl, rfl, rfl, rfl, rfl, rfl, by decide⟩

/-- C4 amended: for every cookie jar with no `xs` and no `c_user` cookie in
which either the fabricated `fr` cookie survives (its third dot-separated
part all-digit and longer than 8 characters) or an all-digit `presence`
cookie survives, `_finalize_account` called with no user id returns the
success result — the downgrade branch is unreachable — and the user id is
an all-digit value mined by the cookie heuristics: a long digit dot-part
of `fr`, or the value of the first all-digit cookie among `i_user`,
`presence`, `a_user`. -/
theorem C4_amended (cookies : List (String × String))
    (hxs : FBSpec.dictGet cookies "xs" = none)
    (hcu : FBSpec.dictGet cookies "c_user" = none)
    (hfab :
      (∃ v, FBSpec.dictGet cookies "fr" = some v ∧
        ∃ p, (FBSpec.pySplit v '.').get? 2 = some p ∧
          FBSpec.pyIsDigit p = true ∧ 8 < p.length) ∨
      (∃ v, FBSpec.dictGet cookies "presence" = some v ∧ FBSpec.pyIsDigit v = true)) :
    ∃ uid, FBSpec.finalizeAccount none cookies = .success uid ∧
      FBSpec.pyIsDigit uid = true ∧
      ((∃ v, FBSpec.dictGet cookies "fr" = some v ∧
          uid ∈ FBSpec.pySplit v '.' ∧ 8 < uid.length) ∨
       FBSpec.dictGet cookies "i_user" = some uid ∨
       FBSpec.dictGet cookies "presence" = some uid ∨
       FBSpec.dictGet cookies "a_user" = some uid) := by
  have key : ∃ uid, FBSpec.inferFromFr cookies = some uid ∧
      FBSpec.pyIsDigit uid = true ∧
      ((∃ v, FBSpec.dictGet cookies "fr" = some v ∧
          uid ∈ FBSpec.pySplit v '.' ∧ 8 < uid.length) ∨
       FBSpec.dictGet cookies "i_user" = some uid ∨
       FBSpec.dictGet cookies "presence" = some uid ∨
       FBSpec.dictGet cookies "a_user" = some uid) := by
    cases hfr : FBSpec.dictGet cookies "fr" with
    | some v =>
      cases hfind : (FBSpec.pySplit v '.').find?
          (fun part => FBSpec.pyIsDigit part && decide (8 < part.length)) with
      | some q =>
        have hpq := List.find?_some hfind
        rcases Bool.and_eq_true_iff.mp hpq with ⟨hq1, hq2⟩
        refine ⟨q, ?_, hq1,
          Or.inl ⟨v, rfl, List.mem_of_find?_eq_some hfind, of_decide_eq_true hq2⟩⟩
        unfold FBSpec.inferFromFr
        simp only [hfr, hfind]
      | none =>
        rcases hfab with ⟨v', hv', p, hp2, hpd, hpl⟩ | ⟨v', hv', hvd⟩
        · rw [hfr] at hv'
          injection hv' with hvv
          subst hvv
          have hsome : ((FBSpec.pySplit v '.').find?
              (fun part => FBSpec.pyIsDigit part && decide (8 < part.length))).isSome := by
            refine List.find?_isSome.mpr ⟨p, List.get?_mem hp2, ?_⟩
            simp [hpd, hpl]
          rw [hfind] at hsome
          simp at hsome
        · obtain ⟨uid, hiu, hud, hor⟩ :=
            FBSpec.inferFromIdCookies_of_presence cookies v' hv' hvd
          refine ⟨uid, ?_, hud, ?_⟩
          · unfold FBSpec.inferFromFr
            simp only [hfr, hfind, hiu]
          · rcases hor with h | h
            · exact Or.inr (Or.inl h)
            · exact Or.inr (Or.inr (Or.inl h))
    | none =>
      rcases hfab with ⟨v', hv', _⟩ | ⟨v', hv', hvd⟩
      · rw [hfr] at hv'
        exact absurd hv' (by simp)
      · obtain ⟨uid, hiu, hud, hor⟩ :=
          FBSpec.inferFromIdCookies_of_presence cookies v' hv' hvd
        refine ⟨uid, ?_, hud, ?_⟩
        · unfold FBSpec.inferFromFr
          simp only [hfr, hiu]
        · rcases hor with h | h
          · exact Or.inr (Or.inl h)
          · exact Or.inr (Or.inr (Or.inl h))
  obtain ⟨uid, hinf, hud, hor⟩ := key
  have hinfer : FBSpec.inferUserIdFromCookies cookies = some uid := by
    unfold FBSpec.inferUserIdFromCookies
    simp only [hxs]
    exact hinf
  exact ⟨uid, FBSpec.finalizeAccount_none_of_infer cookies uid hcu hinfer
    (FBSpec.pyIsDigit_ne_empty hud), hud, hor⟩

/-- Witness for C4 amended: the setup-time jar shape (`fr` with a 10-digit
third dot-part, all-digit `presence`) finalizes successfully. -/
theorem C4_amended_witness :
    ∃ uid, FBSpec.finalizeAccount none
        [("locale", "en_US"), ("fr", "123456.789012.1718000000.0.0.5"),
         ("presence", "1234567"), ("datr", "xyz")] = .success uid ∧
      FBSpec.pyIsDigit uid = true ∧
      ((∃ v, FBSpec.dictGet
          [("locale", "en_US"), ("fr", "123456.789012.1718000000.0.0.5"),
           ("presence", "1234567"), ("datr", "xyz")] "fr" = some v ∧
          uid ∈ FBSpec.pySplit v '.' ∧ 8 < uid.length) ∨
       FBSpec.dictGet
          [("locale", "en_US"), ("fr", "123456.789012.1718000000.0.0.5"),
           ("presence", "1234567"), ("datr", "xyz")] "i_user" = some uid ∨
       FBSpec.dictGet
          [("locale", "en_US"), ("fr", "123456.789012.1718000000.0.0.5"),
           ("presence", "1234567"), ("datr", "xyz")] "presence" = some uid ∨
       FBSpec.dictGet
          [("locale", "en_US"), ("fr", "123456.789012.1718000000.0.0.5"),
           ("presence", "1234567"), ("datr", "xyz")] "a_user" = some uid) :=
  C4_amended
    [("locale", "en_US"), ("fr", "123456.789012.1718000000.0.0.5"),
     ("presence", "1234567"), ("datr", "xyz")]
    rfl rfl
    (Or.inl ⟨"123456.789012.1718000000.0.0.5", rfl, "1718000000", rfl, rfl, by decide⟩)

/-- C7: every post-registration response whose session cookies contain a
non-empty `c_user` cookie and whose URL contains a
checkpoint/confirmation substring classifies as Success finalized with the
`c_user` value — the cookie check precedes and overrides the URL check. -/
theorem C7_cookie_priority (attempts maxAttempts : Nat)
    (resp : FBSpec.RegResponse) (v : String)
    (hcu : FBSpec.dictGet resp.cookies "c_user" = some v) (hv : v ≠ "")
    (_hurl : (["checkpoint", "confirmemail", "confirm_email", "confirmation"].any
      (fun term => FBSpec.strContains resp.url term)) = true) :
    FBSpec.classifyMobileRegistration attempts maxAttempts resp =
      .finalized (.success v) := by
  have ht : FBSpec.pyTruthy (some v) = true := by simp [FBSpec.pyTruthy, hv]
  unfold FBSpec.classifyMobileRegistration
  simp only [hcu, ht, if_true]
  rw [FBSpec.finalizeAccount_some v resp.cookies hv]

/-- Witness for C7: a response with `c_user=123456789` and a checkpoint
URL classifies as Success `123456789`. -/
theorem C7_cookie_priority_witness :
    FBSpec.classifyMobileRegistration 1 2
      ⟨[("c_user", "123456789"), ("xs", "7:abc")],
       "https://m.facebook.com/checkpoint/", "", false, []⟩ =
      .finalized (.success "123456789") :=
  C7_cookie_priority 1 2
    ⟨[("c_user", "123456789"), ("xs", "7:abc")],
     "https://m.facebook.com/checkpoint/", "", false, []⟩
    "123456789" rfl (by decide) rfl

/-- C6 counterexample: the claim says that after `remove_current_proxy()`
evicts `p`, no later `get_proxy()` can return `p` and the persisted file no
longer lists it.  Python `list.remove` removes only the first occurrence,
so when the working list holds a duplicated proxy (e.g. the list file
contained the same line twice) the duplicate survives eviction: the next
`get_proxy()` returns it and the re-persisted file still lists it. -/
theorem C6_counterexample :
    ((FBSpec.remove_current_proxy
        ⟨[], [⟨"1.2.3.4", "80", none⟩, ⟨"1.2.3.4", "80", none⟩],
         some ⟨"1.2.3.4", "80", none⟩,
         ["1.2.3.4:80", "1.2.3.4:80"]⟩).1.current_proxy = none) ∧
    (FBSpec.get_proxy
      (FBSpec.remove_current_proxy
        ⟨[], [⟨"1.2.3.4", "80", none⟩, ⟨"1.2.3.4", "80", none⟩],
         some ⟨"1.2.3.4", "80", none⟩,
         ["1.2.3.4:80", "1.2.3.4:80"]⟩).1 0).2 = some ⟨"1.2.3.4", "80", none⟩ ∧
    (FBSpec.remove_current_proxy
        ⟨[], [⟨"1.2.3.4", "80", none⟩, ⟨"1.2.3.4", "80", none⟩],
         some ⟨"1.2.3.4", "80", none⟩,
         ["1.2.3.4:80", "1.2.3.4:80"]⟩).1.savedWorkingFile = ["1.2.3.4:80"] ∧
    FBSpec.proxyLine ⟨"1.2.3.4", "80", none⟩ = "1.2.3.4:80" := by
  refine ⟨rfl, rfl, rfl, rfl⟩

/-- C6 amended: provided the evicted proxy occurs at most once in each list
at eviction time (no duplicated entries), and the persisted file is in sync
with the working list, eviction is permanent: the proxy is gone from both
lists, every later `get_proxy`/`get_next_proxy` call (in any sequence)
returns a different proxy or none, and the re-persisted working file no
longer lists its line (given that no other retained entry formats to the
same line). -/
theorem C6_amended (st : FBSpec.PMState) (p : FBSpec.Proxy)
    (hc : st.current_proxy = some p)
    (h1 : st.working_proxies.count p ≤ 1)
    (h2 : st.proxies.count p ≤ 1)
    (hsync : st.savedWorkingFile = st.working_proxies.map FBSpec.proxyLine)
    (hinj : ∀ q ∈ st.working_proxies, FBSpec.proxyLine q = FBSpec.proxyLine p → q = p) :
    p ∉ (FBSpec.remove_current_proxy st).1.working_proxies ∧
    p ∉ (FBSpec.remove_current_proxy st).1.proxies ∧
    FBSpec.proxyLine p ∉ (FBSpec.remove_current_proxy st).1.savedWorkingFile ∧
    ∀ ops : List FBSpec.PMOp,
      some p ∉ (FBSpec.runPMOps (FBSpec.remove_current_proxy st).1 ops).2 := by
  obtain ⟨e1, e2, e3⟩ := FBSpec.remove_current_proxy_spec st p hc
  have hnw : p ∉ (FBSpec.remove_current_proxy st).1.working_proxies := by
    rw [e1]
    by_cases hw : p ∈ st.working_proxies
    · rw [if_pos hw]
      exact FBSpec.not_mem_erase_of_count_le_one h1
    · rw [if_neg hw]
      exact hw
  have hnp : p ∉ (FBSpec.remove_current_proxy st).1.proxies := by
    rw [e2]
    by_cases hp : p ∈ st.proxies
    · rw [if_pos hp]
      exact FBSpec.not_mem_erase_of_count_le_one h2
    · rw [if_neg hp]
      exact hp
  have hnf : FBSpec.proxyLine p ∉ (FBSpec.remove_current_proxy st).1.savedWorkingFile := by
    rw [e3]
    by_cases hw : p ∈ st.working_proxies
    · rw [if_pos hw]
      intro hmem
      obtain ⟨q, hq, hline⟩ := List.mem_map.mp hmem
      have hq' : q ∈ st.working_proxies := List.mem_of_mem_erase hq
      have : q = p := hinj q hq' hline
      subst this
      exact FBSpec.not_mem_erase_of_count_le_one h1 hq
    · rw [if_neg hw, hsync]
      intro hmem
      obtain ⟨q, hq, hline⟩ := List.mem_map.mp hmem
      have : q = p := hinj q hq hline
      subst this
      exact hw hq
  exact ⟨hnw, hnp, hnf,
    fun ops => FBSpec.runPMOps_not_mem p ops _ hnw hnp⟩

/-- Witness for C6 amended at a concrete two-proxy state: after evicting
the current proxy it is absent from both lists and the file, and a
concrete sequence of selection calls never returns it. -/
theorem C6_amended_witness :
    (⟨"1.2.3.4", "80", none⟩ : FBSpec.Proxy) ∉
      (FBSpec.remove_current_proxy
        ⟨[⟨"5.6.7.8", "81", none⟩], [⟨"1.2.3.4", "80", none⟩],
         some ⟨"1.2.3.4", "80", none⟩, ["1.2.3.4:80"]⟩).1.working_proxies ∧
    (⟨"1.2.3.4", "80", none⟩ : FBSpec.Proxy) ∉
      (FBSpec.remove_current_proxy
        ⟨[⟨"5.6.7.8", "81", none⟩], [⟨"1.2.3.4", "80", none⟩],
         some ⟨"1.2.3.4", "80", none⟩, ["1.2.3.4:80"]⟩).1.proxies ∧
    FBSpec.proxyLine ⟨"1.2.3.4", "80", none⟩ ∉
      (FBSpec.remove_current_proxy
        ⟨[⟨"5.6.7.8", "81", none⟩], [⟨"1.2.3.4", "80", none⟩],
         some ⟨"1.2.3.4", "80", none⟩, ["1.2.3.4:80"]⟩).1.savedWorkingFile ∧
    some (⟨"1.2.3.4", "80", none⟩ : FBSpec.Proxy) ∉
      (FBSpec.runPMOps
        (FBSpec.remove_current_proxy
          ⟨[⟨"5.6.7.8", "81", none⟩], [⟨"1.2.3.4", "80", none⟩],
           some ⟨"1.2.3.4", "80", none⟩, ["1.2.3.4:80"]⟩).1
        [.getP 0, .getNext 1, .getP 2]).2 := by
  have h := C6_amended
    ⟨[⟨"5.6.7.8", "81", none⟩], [⟨"1.2.3.4", "80", none⟩],
     some ⟨"1.2.3.4", "80", none⟩, ["1.2.3.4:80"]⟩
    ⟨"1.2.3.4", "80", none⟩
    rfl (by decide) (by decide) rfl (by decide)
  exact ⟨h.1, h.2.1, h.2.2.1, h.2.2.2 [.getP 0, .getNext 1, .getP 2]⟩

/-- C2 counterexample: the claim says only the three transport error
classes cause proxy eviction and retry.  The loop's final
`except Exception` clause also calls `remove_current_proxy` and retries:
with a single proxy and a workflow run raising a non-transport exception,
the eviction list contains that proxy. -/
theorem C2_counterexample :
    (FBSpec.try_with_proxy (fun _ => .otherException) (fun _ => 0)
        ⟨[⟨"1.2.3.4", "80", none⟩], [], none, []⟩ 2).2.2 =
      [⟨"1.2.3.4", "80", none⟩] ∧
    (FBSpec.RunOutcome.otherException ≠ .tooManyRedirects ∧
     FBSpec.RunOutcome.otherException ≠ .connectionError ∧
     FBSpec.RunOutcome.otherException ≠ .timeout ∧
     ∀ ro, FBSpec.RunOutcome.otherException ≠ .result ro) := by
  refine ⟨rfl, by decide, by decide, by decide, fun ro h => by cases h⟩

/-- C2 amended: in `try_with_proxy`, (1) evictions happen only at attempts
whose workflow run raised an exception — but of any of the four caught
classes, not only the three transport ones; (2) a truthy workflow result
(Success, Partial or VerificationRequired dict) is returned immediately
with no eviction; (3) any caught exception — including the non-transport
catch-all — evicts the chosen proxy; (4) a falsy workflow result (`False`)
retries with a new proxy without evicting. -/
theorem C2_amended (runs : Nat → FBSpec.RunOutcome) (choices : Nat → Nat)
    (st : FBSpec.PMState) (a r : Nat) :
    ((FBSpec.tryWithProxyFrom runs choices a r st).2.2 ≠ [] →
      ∃ i, a ≤ i ∧ i < a + r ∧ FBSpec.isExceptionOutcome (runs i) = true) ∧
    (∀ d st1 p, 0 < r → FBSpec.get_proxy st (choices a) = (st1, some p) →
      runs a = .result (some d) →
      FBSpec.tryWithProxyFrom runs choices a r st = (.ok d, st1, [])) ∧
    (∀ st1 p, 0 < r → FBSpec.get_proxy st (choices a) = (st1, some p) →
      FBSpec.isExceptionOutcome (runs a) = true →
      p ∈ (FBSpec.tryWithProxyFrom runs choices a r st).2.2) ∧
    (∀ st1 p, 0 < r → FBSpec.get_proxy st (choices a) = (st1, some p) →
      runs a = .result none →
      FBSpec.tryWithProxyFrom runs choices a r st =
        FBSpec.tryWithProxyFrom runs choices (a + 1) (r - 1) st1) := by
  refine ⟨FBSpec.tryWithProxyFrom_evictions runs choices r a st, ?_, ?_, ?_⟩
  · intro d st1 p hr hg hrun
    cases r with
    | zero => omega
    | succ n => simp only [FBSpec.tryWithProxyFrom, hg, hrun]
  · intro st1 p hr hg hex
    cases r with
    | zero => omega
    | succ n =>
      cases hrun : runs a with
      | result ro =>
        rw [hrun] at hex
        simp [FBSpec.isExceptionOutcome] at hex
      | tooManyRedirects =>
        simp only [FBSpec.tryWithProxyFrom, hg, hrun]
        exact List.mem_cons_self _ _
      | connectionError =>
        simp only [FBSpec.tryWithProxyFrom, hg, hrun]
        exact List.mem_cons_self _ _
      | timeout =>
        simp only [FBSpec.tryWithProxyFrom, hg, hrun]
        exact List.mem_cons_self _ _
      | otherException =>
        simp only [FBSpec.tryWithProxyFrom, hg, hrun]
        exact List.mem_cons_self _ _
  · intro st1 p hr hg hrun
    cases r with
    | zero => omega
    | succ n => simp only [FBSpec.tryWithProxyFrom, hg, hrun, Nat.add_sub_cancel]

/-- Witness for C2 amended: a first attempt returning a truthy Success
result is returned immediately with no eviction. -/
theorem C2_amended_witness :
    FBSpec.tryWithProxyFrom (fun _ => .result (some (.success "9"))) (fun _ => 0) 0 3
      ⟨[], [⟨"1.2.3.4", "80", none⟩], none, []⟩ =
      (.ok (.success "9"),
       ⟨[], [⟨"1.2.3.4", "80", none⟩], some ⟨"1.2.3.4", "80", none⟩, []⟩, []) :=
  (C2_amended (fun _ => .result (some (.success "9"))) (fun _ => 0)
    ⟨[], [⟨"1.2.3.4", "80", none⟩], none, []⟩ 0 3).2.1 (.success "9")
    ⟨[], [⟨"1.2.3.4", "80", none⟩], some ⟨"1.2.3.4", "80", none⟩, []⟩
    ⟨"1.2.3.4", "80", none⟩ (by decide) rfl rfl

/-- C3 counterexample: the claim says `load()` returns false only when no
source (cache file, raw file, remote provider) yields any entries.  When
the cache file is absent and the raw proxy file exists but yields zero
entries, `load_proxies` returns `False` without consulting the remote
provider — even though the provider's list would yield an entry. -/
theorem C3_counterexample :
    (FBSpec.load_proxies ⟨none, some [""], some ["1.2.3.4:80"]⟩).ok = false ∧
    (FBSpec.parseRawLines ["1.2.3.4:80"] []).1 = [⟨"1.2.3.4", "80", none⟩] ∧
    (FBSpec.parseRawLines ["1.2.3.4:80"] []).2 = true ∧
    ([⟨"1.2.3.4", "80", none⟩] : List FBSpec.Proxy) ≠ [] := by
  refine ⟨rfl, rfl, rfl, by decide⟩

/-- C3 amended: `load()` populates from the cache file if present with at
least one entry (returning true), else from the raw file if present
(returning true iff its parse completes and yields at least one entry —
the remote provider is not consulted), else from the remote provider
(returning true iff the request succeeds and its content yields at least
one entry).  So it returns false exactly when the one terminal source it
consults yields no entries, not when all sources are empty. -/
theorem C3_amended (fs : FBSpec.ProxyFS) :
    ((FBSpec.load_proxies fs).ok = true ↔
      (FBSpec.cacheYields fs = true ∨
       (FBSpec.cacheYields fs = false ∧
        ((∃ pl, fs.proxyFile = some pl ∧
            (FBSpec.load_proxies_from_file pl).2 = true) ∨
         (fs.proxyFile = none ∧
          ∃ content, fs.apiResult = some content ∧
            (FBSpec.load_proxies_from_file content).2 = true))))) ∧
    (FBSpec.cacheYields fs = true →
      (FBSpec.load_proxies fs).working_proxies =
        FBSpec.load_working_proxies (fs.workingFile.getD [])) := by
  constructor
  · unfold FBSpec.load_proxies FBSpec.loadProxiesFallback FBSpec.cacheYields
    cases hwf : fs.workingFile with
    | none =>
      cases hpf : fs.proxyFile with
      | some pl => simp [hpf]
      | none =>
        cases hapi : fs.apiResult with
        | none => simp [hpf, hapi]
        | some content => simp [hpf, hapi]
    | some wl =>
      by_cases hlen : 0 < (FBSpec.load_working_proxies wl).length
      · simp [hlen]
      · cases hpf : fs.proxyFile with
        | some pl => simp [hlen, hpf]
        | none =>
          cases hapi : fs.apiResult with
          | none => simp [hlen, hpf, hapi]
          | some content => simp [hlen, hpf, hapi]
  · intro hc
    unfold FBSpec.cacheYields at hc
    cases hwf : fs.workingFile with
    | none => rw [hwf] at hc; simp at hc
    | some wl =>
      rw [hwf] at hc
      have hlen : 0 < (FBSpec.load_working_proxies wl).length := by
        simpa using hc
      unfold FBSpec.load_proxies
      rw [hwf]
      simp [hlen]

set_option maxRecDepth 4000 in
/-- C5 counterexample: filling is not idempotent.  The first fill injects
the metadata field `contactpoint_type` with value `email`; on a second
pass that key matches the `contactpoint` email pattern and is overwritten
with the supplied address, so filling the fill's own output changes the
map (the claim's round-trip clause fails on the empty scraped map). -/
theorem C5_counterexample :
    FBSpec.dictGet
      (FBSpec.fill_registration_form ⟨"Ann", "Lee", 1990, 5, 12, "1", "Pw", "DEV"⟩
        "a@b.com" 2025 "RI"
        (FBSpec.fill_registration_form ⟨"Ann", "Lee", 1990, 5, 12, "1", "Pw", "DEV"⟩
          "a@b.com" 2025 "RI" []))
      "contactpoint_type" = some "a@b.com" ∧
    FBSpec.dictGet
      (FBSpec.fill_registration_form ⟨"Ann", "Lee", 1990, 5, 12, "1", "Pw", "DEV"⟩
        "a@b.com" 2025 "RI" [])
      "contactpoint_type" = some "email" ∧
    FBSpec.fill_registration_form ⟨"Ann", "Lee", 1990, 5, 12, "1", "Pw", "DEV"⟩
        "a@b.com" 2025 "RI"
        (FBSpec.fill_registration_form ⟨"Ann", "Lee", 1990, 5, 12, "1", "Pw", "DEV"⟩
          "a@b.com" 2025 "RI" []) ≠
      FBSpec.fill_registration_form ⟨"Ann", "Lee", 1990, 5, 12, "1", "Pw", "DEV"⟩
        "a@b.com" 2025 "RI" [] := by
  refine ⟨rfl, rfl, ?_⟩
  intro heq
  have h1 : FBSpec.dictGet
      (FBSpec.fill_registration_form ⟨"Ann", "Lee", 1990, 5, 12, "1", "Pw", "DEV"⟩
        "a@b.com" 2025 "RI"
        (FBSpec.fill_registration_form ⟨"Ann", "Lee", 1990, 5, 12, "1", "Pw", "DEV"⟩
          "a@b.com" 2025 "RI" []))
      "contactpoint_type" = some "a@b.com" := rfl
  rw [heq] at h1
  have h2 : FBSpec.dictGet
      (FBSpec.fill_registration_form ⟨"Ann", "Lee", 1990, 5, 12, "1", "Pw", "DEV"⟩
        "a@b.com" 2025 "RI" [])
      "contactpoint_type" = some "email" := rfl
  rw [h2] at h1
  exact absurd h1 (by decide)

/-- C5 amended: (a) a terms-type field (name matching
terms/privacy/tos/policy/agree) whose name does not also match any
name/email/password/gender pattern and whose value is neither empty nor
`"0"` is never overwritten; (b) an email-type field whose name does not
also match a password/gender/terms pattern is always overwritten (even
when empty) with the supplied address; (c) the fill is idempotent on every
field map that already contains the `contactpoint_type` key — in general a
second application differs only by rewriting the injected
`contactpoint_type` metadata field to the supplied address. -/
theorem C5_amended (u : FBSpec.UserData) (email : String) (y : Int) (ri : String) :
    (∀ (m : FBSpec.FormData) (k v : String),
      FBSpec.terms_patterns.any
        (fun pat => FBSpec.strContains (FBSpec.pyLower k) pat) = true →
      (FBSpec.name_field_patterns u).all
        (fun pv => !FBSpec.strContains (FBSpec.pyLower k) (FBSpec.pyLower pv.1)) = true →
      FBSpec.email_field_patterns.all
        (fun pat => !FBSpec.strContains (FBSpec.pyLower k) pat) = true →
      FBSpec.password_patterns.all
        (fun pat => !FBSpec.strContains (FBSpec.pyLower k) pat) = true →
      FBSpec.gender_patterns.all
        (fun pat => !FBSpec.strContains (FBSpec.pyLower k) pat) = true →
      FBSpec.dictGet m k = some v → v ≠ "" → v ≠ "0" →
      FBSpec.dictGet (FBSpec.fill_registration_form u email y ri m) k = some v) ∧
    (∀ (m : FBSpec.FormData) (k w : String),
      FBSpec.email_field_patterns.any
        (fun pat => FBSpec.strContains (FBSpec.pyLower k) pat) = true →
      FBSpec.password_patterns.all
        (fun pat => !FBSpec.strContains (FBSpec.pyLower k) pat) = true →
      FBSpec.gender_patterns.all
        (fun pat => !FBSpec.strContains (FBSpec.pyLower k) pat) = true →
      FBSpec.terms_patterns.all
        (fun pat => !FBSpec.strContains (FBSpec.pyLower k) pat) = true →
      FBSpec.dictGet m k = some w →
      FBSpec.dictGet (FBSpec.fill_registration_form u email y ri m) k = some email) ∧
    (∀ m : FBSpec.FormData, FBSpec.dictHas m "contactpoint_type" = true →
      FBSpec.fill_registration_form u email y ri
        (FBSpec.fill_registration_form u email y ri m) =
        FBSpec.fill_registration_form u email y ri m) := by
  refine ⟨?_, ?_, fun m hcp => FBSpec.fill_idem u email y ri m hcp⟩
  · intro m k v hterms hname hemail hpass hgender hget hv1 hv2
    rw [FBSpec.fill_eq]
    have hgood : ((v == "" || v == "0") : Bool) = false := by
      simp [hv1, hv2]
    have htp : (fun s => FBSpec.terms_patterns.any
        (fun pat => FBSpec.strContains (FBSpec.pyLower s) pat)) k = true := hterms
    have hval : FBSpec.applyRulesVal
        (FBSpec.fullRules u email y
          (FBSpec.chooseKey m "birthday_day" "birthday[day]")
          (FBSpec.chooseKey m "birthday_month" "birthday[month]")
          (FBSpec.chooseKey m "birthday_year" "birthday[year]")) k v = v := by
      unfold FBSpec.fullRules
      have hbq : ∀ K : String,
          FBSpec.terms_patterns.any
            (fun pat => FBSpec.strContains (FBSpec.pyLower K) pat) = false →
          (k == K) = false :=
        fun K hK => FBSpec.beq_false_of_pred
          (fun s => FBSpec.terms_patterns.any
            (fun pat => FBSpec.strContains (FBSpec.pyLower s) pat)) k K htp hK
      have hbqc : ∀ K1 K2 : String,
          FBSpec.terms_patterns.any
            (fun pat => FBSpec.strContains (FBSpec.pyLower K1) pat) = false →
          FBSpec.terms_patterns.any
            (fun pat => FBSpec.strContains (FBSpec.pyLower K2) pat) = false →
          (k == FBSpec.chooseKey m K1 K2) = false :=
        fun K1 K2 h1 h2 => FBSpec.beq_chooseKey_false
          (fun s => FBSpec.terms_patterns.any
            (fun pat => FBSpec.strContains (FBSpec.pyLower s) pat)) k m K1 K2 htp h1 h2
      rw [FBSpec.applyRulesVal_append,
        FBSpec.applyRulesVal_of_all_false _ _ _
          (FBSpec.keyRules_all_false v
            (hbqc "birthday_day" "birthday[day]" rfl rfl)
            (hbqc "birthday_month" "birthday[month]" rfl rfl)
            (hbqc "birthday_year" "birthday[year]" rfl rfl)
            (hbq "day" rfl) (hbq "month" rfl) (hbq "year" rfl)
            (hbq "birthday" rfl) (hbq "birthday_age" rfl)
            hname hemail hpass hgender)]
      exact FBSpec.applyRulesVal_of_all_false _ _ _
        (FBSpec.termsRules_false_of_good hgood)
    have hget2 := FBSpec.dictGet_applyRules
      (FBSpec.fullRules u email y
        (FBSpec.chooseKey m "birthday_day" "birthday[day]")
        (FBSpec.chooseKey m "birthday_month" "birthday[month]")
        (FBSpec.chooseKey m "birthday_year" "birthday[year]")) m k v hget
    rw [hval] at hget2
    unfold FBSpec.addCommonFields
    exact FBSpec.dictGet_foldl_addIfAbsent_of_some _ _ _ _ hget2
  · intro m k w hmatch hpass hgender hterms hget
    rw [FBSpec.fill_eq]
    have hval : FBSpec.applyRulesVal
        (FBSpec.fullRules u email y
          (FBSpec.chooseKey m "birthday_day" "birthday[day]")
          (FBSpec.chooseKey m "birthday_month" "birthday[month]")
          (FBSpec.chooseKey m "birthday_year" "birthday[year]")) k w = email := by
      unfold FBSpec.fullRules FBSpec.keyRules
      simp only [FBSpec.applyRulesVal_append]
      obtain ⟨pat, hpat, hcont⟩ := List.any_eq_true.mp hmatch
      rw [FBSpec.applyRulesVal_overwrite (FBSpec.emailRules email) k _ email
        (by intro cv hcv; obtain ⟨p, _, rfl⟩ := List.mem_map.mp hcv; rfl)
        (by intro cv hcv w1 w2; obtain ⟨p, _, rfl⟩ := List.mem_map.mp hcv; rfl)
        ⟨(fun k _ => FBSpec.strContains (FBSpec.pyLower k) pat, email),
          List.mem_map_of_mem _ hpat, hcont⟩]
      rw [FBSpec.applyRulesVal_const (FBSpec.confirmationRules email) k email
        (by intro cv hcv; obtain ⟨p, _, rfl⟩ := List.mem_map.mp hcv; rfl)]
      rw [FBSpec.applyRulesVal_of_all_false _ _ _
        (FBSpec.passwordRules_all_false email hpass)]
      rw [FBSpec.applyRulesVal_of_all_false _ _ _
        (FBSpec.genderRules_all_false email hgender)]
      exact FBSpec.applyRulesVal_of_all_false _ _ _
        (FBSpec.termsRules_all_false email hterms)
    have hget2 := FBSpec.dictGet_applyRules
      (FBSpec.fullRules u email y
        (FBSpec.chooseKey m "birthday_day" "birthday[day]")
        (FBSpec.chooseKey m "birthday_month" "birthday[month]")
        (FBSpec.chooseKey m "birthday_year" "birthday[year]")) m k w hget
    rw [hval] at hget2
    unfold FBSpec.addCommonFields
    exact FBSpec.dictGet_foldl_addIfAbsent_of_some _ _ _ _ hget2

/-- Witness for C5 amended: a non-empty `terms` field survives the fill,
an empty `reg_email` field is overwritten with the address, and the fill
is idempotent on a map carrying `contactpoint_type`. -/
theorem C5_amended_witness :
    FBSpec.dictGet
      (FBSpec.fill_registration_form ⟨"Ann", "Lee", 1990, 5, 12, "1", "Pw", "DEV"⟩
        "a@b.com" 2025 "RI" [("terms", "yes")]) "terms" = some "yes" ∧
    FBSpec.dictGet
      (FBSpec.fill_registration_form ⟨"Ann", "Lee", 1990, 5, 12, "1", "Pw", "DEV"⟩
        "a@b.com" 2025 "RI" [("reg_email", "")]) "reg_email" = some "a@b.com" ∧
    FBSpec.fill_registration_form ⟨"Ann", "Lee", 1990, 5, 12, "1", "Pw", "DEV"⟩
        "a@b.com" 2025 "RI"
        (FBSpec.fill_registration_form ⟨"Ann", "Lee", 1990, 5, 12, "1", "Pw", "DEV"⟩
          "a@b.com" 2025 "RI" [("contactpoint_type", "x")]) =
      FBSpec.fill_registration_form ⟨"Ann", "Lee", 1990, 5, 12, "1", "Pw", "DEV"⟩
        "a@b.com" 2025 "RI" [("contactpoint_type", "x")] := by
  refine ⟨?_, ?_, ?_⟩
  · exact (C5_amended ⟨"Ann", "Lee", 1990, 5, 12, "1", "Pw", "DEV"⟩
      "a@b.com" 2025 "RI").1 [("terms", "yes")] "terms" "yes"
      rfl rfl rfl rfl rfl rfl (by decide) (by decide)
  · exact (C5_amended ⟨"Ann", "Lee", 1990, 5, 12, "1", "Pw", "DEV"⟩
      "a@b.com" 2025 "RI").2.1 [("reg_email", "")] "reg_email" ""
      rfl rfl rfl rfl rfl
  · exact (C5_amended ⟨"Ann", "Lee", 1990, 5, 12, "1", "Pw", "DEV"⟩
      "a@b.com" 2025 "RI").2.2 [("contactpoint_type", "x")] rfl

/-- Witness for C3 amended: a cache file with one entry makes `load()`
succeed and populate the working list from it. -/
theorem C3_amended_witness :
    (FBSpec.load_proxies ⟨some ["1.2.3.4:80"], none, none⟩).ok = true ∧
    (FBSpec.load_proxies ⟨some ["1.2.3.4:80"], none, none⟩).working_proxies =
      FBSpec.load_working_proxies
        ((⟨some ["1.2.3.4:80"], none, none⟩ : FBSpec.ProxyFS).workingFile.getD []) :=
  ⟨(C3_amended ⟨some ["1.2.3.4:80"], none, none⟩).1.mpr (Or.inl rfl),
   (C3_amended ⟨some ["1.2.3.4:80"], none, none⟩).2 rfl⟩
